import Mathlib

/-!
A shallow embedding of the job-lifecycle core of `cyhy_runner.py`
(`check_for_new_work`, `do_work`, `move_job_to_done`, `write_status_file`,
`check_for_done_work`, and the body of `run`'s polling loop).

The filesystem is modelled abstractly:

* `running/` is an association list from job identifier (the directory name)
  to the contents of that job directory that the program inspects or writes:
  the `.ready` marker, the `job` executable, `job.out`, `job.err`, and a
  possible `.done` marker (with its text content).
* `done/` is an association list from identifier to a `DoneEntry`: the files
  directly inside `done/<id>/` plus, possibly, a nested moved-in copy
  `done/<id>/<id>/` (this is what `shutil.move` produces when the
  destination directory already exists).
* The module-level globals `running_dirs` (a Python `set`) and `processes`
  (a Python `list` of `Popen` handles) are a list of identifiers (kept
  duplicate-free by the program logic) and a list of `Proc` records.
  A `Proc` carries the identifier of its job directory (the basename of the
  `job_dir` attribute the program attaches) and the result that `poll()`
  would return: `none` while the child runs, `some rc` once it has exited.
  Which processes have exited is part of the modelled state; the
  environment changes it between cycles.
* The logger is a list of entries; every call appends.

Exceptions (`shutil.move` on a missing source, `shutil.move` onto an
occupied nested destination, `set.remove` of an absent element) are modelled
as an `Option Err` second component: `some e` means the Python function
raised `e` at that point, and the `State` component is the partial state at
the moment of the raise, exactly as the mutations performed so far left it.
-/

namespace CyhyRunner

abbrev JobId := String

/-- The contents of one job directory that the program reads or writes.
`doneFile = some c` means a `.done` file with text content `c` is present. -/
structure JobDir where
  ready : Bool
  job : Bool
  jobOut : Bool
  jobErr : Bool
  doneFile : Option String
deriving DecidableEq, Repr

/-- One entry `done/<id>/` of the done area: the files directly inside it,
plus a possible nested directory `done/<id>/<id>/` left by `shutil.move`
when `done/<id>/` already existed at move time. -/
structure DoneEntry where
  top : JobDir
  sub : Option JobDir
deriving DecidableEq, Repr

/-- A `subprocess.Popen` handle as the reaper sees it: the identifier of the
job directory it was tagged with, and the value `poll()` returns (`none`
while the child is still running, `some rc` once it has exited). -/
structure Proc where
  jobId : JobId
  status : Option Int
deriving DecidableEq, Repr

inductive LogLevel
  | info
  | warning
  | critical
deriving DecidableEq, Repr

structure LogEntry where
  level : LogLevel
  msg : String
deriving DecidableEq, Repr

/-- The exceptions the modelled code can raise: `shutil.move` with a missing
source directory, `shutil.move` onto a destination whose nested slot is
already occupied, and `set.remove` of an element not in the set. -/
inductive Err
  | srcMissing (id : JobId)
  | moveCollision (id : JobId)
  | keyError (id : JobId)
deriving DecidableEq, Repr

/-- The whole observable state: the two directory areas, the two module
globals, and the log. -/
structure State where
  running : List (JobId × JobDir)
  doneArea : List (JobId × DoneEntry)
  running_dirs : List JobId
  processes : List Proc
  log : List LogEntry
deriving DecidableEq, Repr

/-! Association-list primitives used to model directory lookups and
in-place file mutations. -/

def lookupKey {α : Type} : List (JobId × α) → JobId → Option α
  | [], _ => none
  | (k, v) :: rest, id => if k = id then some v else lookupKey rest id

def setKey {α : Type} : List (JobId × α) → JobId → α → List (JobId × α)
  | [], _, _ => []
  | (k, v) :: rest, id, w => if k = id then (k, w) :: rest else (k, v) :: setKey rest id w

def eraseKey {α : Type} : List (JobId × α) → JobId → List (JobId × α)
  | [], _ => []
  | (k, v) :: rest, id => if k = id then rest else (k, v) :: eraseKey rest id

def logAdd (s : State) (lv : LogLevel) (m : String) : State :=
  { s with log := s.log ++ [⟨lv, m⟩] }

def errMsg : Err → String
  | .srcMissing id => "no such file or directory " ++ id
  | .moveCollision id => "destination path already exists " ++ id
  | .keyError id => "key error " ++ id

/-- The text `print(return_code, file=status_file)` writes: the decimal
rendering of the integer followed by a newline. -/
def statusText (rc : Int) : String := toString rc ++ "\n"

/-- Mirrors `write_status_file(job_dir, return_code)` called with a path
`done/<id>`: opens `done/<id>/.done` in truncating write mode and prints the
return code, i.e. sets the `.done` file directly inside `done/<id>/`. -/
def write_status_file (doneArea : List (JobId × DoneEntry)) (id : JobId) (rc : Int) :
    List (JobId × DoneEntry) :=
  match lookupKey doneArea id with
  | some e => setKey doneArea id ⟨{ e.top with doneFile := some (statusText rc) }, e.sub⟩
  | none => doneArea

/-- Mirrors `move_job_to_done(job_dir)` for `job_dir = running/<id>`:
delete `running/<id>/.ready` if it exists, then `shutil.move(running/<id>,
done/<id>)`.  `shutil.move` renames the directory when `done/<id>` does not
exist; when it does exist (as a directory) it moves the source *inside* it,
to `done/<id>/<id>`, raising if that nested destination is itself occupied;
when the source is missing it raises. -/
def move_job_to_done (s : State) (id : JobId) : State × Option Err :=
  match lookupKey s.running id with
  | none => (s, some (.srcMissing id))
  | some d =>
    let d1 : JobDir := { d with ready := false }
    let sR : State := { s with running := setKey s.running id d1 }
    match lookupKey sR.doneArea id with
    | none =>
      ({ sR with running := eraseKey sR.running id,
                 doneArea := sR.doneArea ++ [(id, ⟨d1, none⟩)] }, none)
    | some e =>
      match e.sub with
      | none =>
        ({ sR with running := eraseKey sR.running id,
                   doneArea := setKey sR.doneArea id ⟨e.top, some d1⟩ }, none)
      | some _ => (sR, some (.moveCollision id))

/-- The degenerate-job path of `do_work`: no `job` file, so log a warning,
move the directory to done, and write the sentinel status `-111`. -/
def degenerateJob (s : State) (id : JobId) : State × Option Err :=
  let s0 := logAdd s .warning ("No job file found in " ++ id ++ ". Moving to done.")
  match move_job_to_done s0 id with
  | (s1, some e) => (s1, some e)
  | (s1, none) => ({ s1 with doneArea := write_status_file s1.doneArea id (-111) }, none)

/-- Mirrors `do_work(job_dir)`.  If the `job` file is absent (also when the
directory itself is absent) take the degenerate path; otherwise open
`job.out` and `job.err` fresh (creating/truncating them), log, `chmod` the
job file, and `Popen` the job, appending the tagged handle to `processes`. -/
def do_work (s : State) (id : JobId) : State × Option Err :=
  match lookupKey s.running id with
  | none => degenerateJob s id
  | some d =>
    if d.job then
      let s1 : State :=
        { s with running := setKey s.running id { d with jobOut := true, jobErr := true } }
      let s2 := logAdd s1 .info ("Starting work in " ++ id)
      ({ s2 with processes := s2.processes ++ [⟨id, none⟩] }, none)
    else
      degenerateJob s id

/-- The body of `check_for_new_work`'s loop for one candidate directory:
skip if already tracked (the redundant in-loop membership test), log
discovery, warn about a leftover `.done` file, and if `.ready` is present
add the identifier to `running_dirs` and call `do_work`. -/
def process_new_dir (s : State) (id : JobId) : State × Option Err :=
  if id ∈ s.running_dirs then (s, none)
  else
    let sA := logAdd s .info ("New directory discovered " ++ id)
    let donePresent :=
      match lookupKey sA.running id with
      | some d => d.doneFile.isSome
      | none => false
    let sB :=
      if donePresent then
        logAdd sA .warning ("Found old .done file in new job " ++ id ++ ". Removing.")
      else sA
    let readyPresent :=
      match lookupKey sB.running id with
      | some d => d.ready
      | none => false
    if readyPresent then
      do_work { sB with running_dirs := sB.running_dirs ++ [id] } id
    else
      (logAdd sB .info ("Not starting work, no .ready file found in " ++ id), none)

/-- The snapshot `set(os.listdir(RUNNING_DIR)).difference(running_dirs)`
computed once at the top of `check_for_new_work`; Python's arbitrary set
iteration order is determinised to the listing order. -/
def newWorkSnapshot (s : State) : List JobId :=
  (s.running.map Prod.fst).filter (fun id => decide (id ∉ s.running_dirs))

def newWorkGo : State → List JobId → State × Option Err
  | s, [] => (s, none)
  | s, id :: rest =>
    match process_new_dir s id with
    | (s1, some e) => (s1, some e)
    | (s1, none) => newWorkGo s1 rest

/-- Mirrors `check_for_new_work()`: snapshot the untracked directory names
once, then process each; an exception from any candidate aborts the loop
and propagates, keeping the mutations made so far. -/
def check_for_new_work (s : State) : State × Option Err :=
  newWorkGo s (newWorkSnapshot s)

/-- The completion log line of `check_for_done_work`. -/
def reapMsg (p : Proc) (rc : Int) : String :=
  "Process in " ++ p.jobId ++ " completed with return code " ++ toString rc ++ "."

/-- Mirrors the `for proc in processes: ... processes.remove(proc)` loop of
`check_for_done_work`.  Python iterates by index over the mutating list, so
removing the current element shifts the list left and the element that
directly followed it is *skipped* in this pass.  `acc` holds (reversed) the
elements the index has moved past; `rest` holds the not-yet-reached suffix;
the true `processes` list at any instant is `acc.reverse ++ rest`.  For an
exited process: log, move the directory to done, write the status file,
remove the handle, and `running_dirs.remove` the identifier (raising
`KeyError` if absent) — and the element after it moves into `acc`
unexamined, reproducing the index skip. -/
def doneWorkGo : State → List Proc → List Proc → State × Option Err
  | s, acc, [] => ({ s with processes := acc.reverse }, none)
  | s, acc, p :: rest =>
    match p.status with
    | none => doneWorkGo s (p :: acc) rest
    | some rc =>
      let s0 := logAdd s .info (reapMsg p rc)
      match move_job_to_done s0 p.jobId with
      | (s1, some e) => ({ s1 with processes := acc.reverse ++ p :: rest }, some e)
      | (s1, none) =>
        let s2 : State := { s1 with doneArea := write_status_file s1.doneArea p.jobId rc }
        if p.jobId ∈ s2.running_dirs then
          let s3 : State := { s2 with running_dirs := s2.running_dirs.erase p.jobId }
          match rest with
          | [] => ({ s3 with processes := acc.reverse }, none)
          | q :: rest2 => doneWorkGo s3 (q :: acc) rest2
        else
          ({ s2 with processes := acc.reverse ++ rest }, some (.keyError p.jobId))

/-- Mirrors `check_for_done_work()`. -/
def check_for_done_work (s : State) : State × Option Err :=
  doneWorkGo s [] s.processes

/-- One iteration of `run`'s loop body: `try: check_for_new_work();
check_for_done_work() except Exception as ex: logger.critical(ex)`.  An
exception from either phase is caught here, logged as critical, and the
loop proceeds with the partial state the raise left behind. -/
def cycle (s : State) : State :=
  match check_for_new_work s with
  | (s1, some e) => logAdd s1 .critical (errMsg e)
  | (s1, none) =>
    match check_for_done_work s1 with
    | (s2, some e) => logAdd s2 .critical (errMsg e)
    | (s2, none) => s2

/-- `n` iterations of the polling loop (no environment change in between:
no producer writes, no child exits). -/
def loop : Nat → State → State
  | 0, s => s
  | n + 1, s => loop n (cycle s)

/-! ### Association-list lemmas -/

theorem lookupKey_setKey_ne {α : Type} (l : List (JobId × α)) {j id : JobId} (w : α)
    (h : j ≠ id) : lookupKey (setKey l id w) j = lookupKey l j := by
  induction l with
  | nil => rfl
  | cons kv rest ih =>
    obtain ⟨k, v⟩ := kv
    by_cases hk : k = id
    · subst hk
      simp [setKey, lookupKey, (Ne.symm h)]
    · simp [setKey, lookupKey, hk]
      by_cases hj : k = j <;> simp [hj, ih]

theorem lookupKey_setKey_self {α : Type} (l : List (JobId × α)) {id : JobId} {v : α} (w : α)
    (h : lookupKey l id = some v) : lookupKey (setKey l id w) id = some w := by
  induction l with
  | nil => simp [lookupKey] at h
  | cons kv rest ih =>
    obtain ⟨k, v'⟩ := kv
    by_cases hk : k = id
    · subst hk
      simp [setKey, lookupKey]
    · simp [lookupKey, hk] at h
      simp [setKey, lookupKey, hk, ih h]

theorem lookupKey_eraseKey_ne {α : Type} (l : List (JobId × α)) {j id : JobId}
    (h : j ≠ id) : lookupKey (eraseKey l id) j = lookupKey l j := by
  induction l with
  | nil => rfl
  | cons kv rest ih =>
    obtain ⟨k, v⟩ := kv
    by_cases hk : k = id
    · subst hk
      simp [eraseKey, lookupKey, (Ne.symm h)]
    · simp [eraseKey, lookupKey, hk]
      by_cases hj : k = j <;> simp [hj, ih]

theorem keys_setKey {α : Type} (l : List (JobId × α)) (id : JobId) (w : α) :
    (setKey l id w).map Prod.fst = l.map Prod.fst := by
  induction l with
  | nil => rfl
  | cons kv rest ih =>
    obtain ⟨k, v⟩ := kv
    by_cases hk : k = id <;> simp [setKey, hk, ih]

theorem eraseKey_sublist {α : Type} (l : List (JobId × α)) (id : JobId) :
    (eraseKey l id).Sublist l := by
  induction l with
  | nil => simp [eraseKey]
  | cons kv rest ih =>
    obtain ⟨k, v⟩ := kv
    by_cases hk : k = id
    · rw [eraseKey, if_pos hk]
      exact List.sublist_cons_self (k, v) rest
    · rw [eraseKey, if_neg hk]
      exact ih.cons₂ (k, v)

theorem keys_eraseKey_sublist {α : Type} (l : List (JobId × α)) (id : JobId) :
    ((eraseKey l id).map Prod.fst).Sublist (l.map Prod.fst) :=
  (eraseKey_sublist l id).map Prod.fst

theorem lookupKey_eq_none {α : Type} (l : List (JobId × α)) (id : JobId) :
    lookupKey l id = none ↔ id ∉ l.map Prod.fst := by
  induction l with
  | nil => simp [lookupKey]
  | cons kv rest ih =>
    obtain ⟨k, v⟩ := kv
    by_cases hk : k = id
    · subst hk
      simp [lookupKey]
    · simp [lookupKey, hk, ih, Ne.symm hk]

theorem lookupKey_isSome_mem {α : Type} {l : List (JobId × α)} {id : JobId} {v : α}
    (h : lookupKey l id = some v) : id ∈ l.map Prod.fst := by
  by_contra hmem
  rw [← lookupKey_eq_none l id] at hmem
  simp [hmem] at h

theorem lookupKey_mem_pair {α : Type} {l : List (JobId × α)} {id : JobId} {v : α}
    (h : lookupKey l id = some v) : (id, v) ∈ l := by
  induction l with
  | nil => simp [lookupKey] at h
  | cons kv rest ih =>
    obtain ⟨k, v'⟩ := kv
    by_cases hk : k = id
    · subst hk
      simp [lookupKey] at h
      simp [h]
    · simp [lookupKey, hk] at h
      simp [ih h]

theorem lookupKey_eraseKey_self {α : Type} {l : List (JobId × α)} {id : JobId}
    (h : (l.map Prod.fst).Nodup) : lookupKey (eraseKey l id) id = none := by
  induction l with
  | nil => rfl
  | cons kv rest ih =>
    obtain ⟨k, v⟩ := kv
    simp only [List.map_cons, List.nodup_cons] at h
    by_cases hk : k = id
    · subst hk
      simp only [eraseKey, if_pos rfl]
      rw [lookupKey_eq_none]
      exact h.1
    · simp only [eraseKey, if_neg hk, lookupKey, if_neg hk]
      exact ih h.2

theorem lookupKey_append {α : Type} (l1 l2 : List (JobId × α)) (id : JobId) :
    lookupKey (l1 ++ l2) id =
      match lookupKey l1 id with
      | some v => some v
      | none => lookupKey l2 id := by
  induction l1 with
  | nil => simp [lookupKey]
  | cons kv rest ih =>
    obtain ⟨k, v⟩ := kv
    by_cases hk : k = id <;> simp [lookupKey, hk, ih]

theorem setKey_of_not_mem {α : Type} {l : List (JobId × α)} {id : JobId} (w : α)
    (h : id ∉ l.map Prod.fst) : setKey l id w = l := by
  induction l with
  | nil => rfl
  | cons kv rest ih =>
    obtain ⟨k, v⟩ := kv
    simp only [List.map_cons, List.mem_cons] at h
    push_neg at h
    simp [setKey, Ne.symm h.1, ih h.2]

theorem eraseKey_of_not_mem {α : Type} {l : List (JobId × α)} {id : JobId}
    (h : id ∉ l.map Prod.fst) : eraseKey l id = l := by
  induction l with
  | nil => rfl
  | cons kv rest ih =>
    obtain ⟨k, v⟩ := kv
    simp only [List.map_cons, List.mem_cons] at h
    push_neg at h
    simp [eraseKey, Ne.symm h.1, ih h.2]

/-! ### State-projection lemmas -/

@[simp] theorem logAdd_running (s : State) (lv : LogLevel) (m : String) :
    (logAdd s lv m).running = s.running := rfl

@[simp] theorem logAdd_doneArea (s : State) (lv : LogLevel) (m : String) :
    (logAdd s lv m).doneArea = s.doneArea := rfl

@[simp] theorem logAdd_running_dirs (s : State) (lv : LogLevel) (m : String) :
    (logAdd s lv m).running_dirs = s.running_dirs := rfl

@[simp] theorem logAdd_processes (s : State) (lv : LogLevel) (m : String) :
    (logAdd s lv m).processes = s.processes := rfl

@[simp] theorem logAdd_log (s : State) (lv : LogLevel) (m : String) :
    (logAdd s lv m).log = s.log ++ [⟨lv, m⟩] := rfl

/-! ### Claim C10 — relocation into a pre-existing done-area directory -/

/-- Claim C10: when a completing job's identifier already names an existing
directory in the done area (with an unoccupied nested slot), the move done
by `move_job_to_done` places the running job directory *inside* that
existing directory (the nested `done/<id>/<id>` slot) rather than replacing
it, the job directory leaves the running area, and the subsequent
`write_status_file` then writes the done marker in the pre-existing *outer*
directory `done/<id>/.done`, not alongside the relocated job contents
(whose own `.done` slot keeps its previous value). -/
theorem claim_C10 (s : State) (id : JobId) (d : JobDir) (en : DoneEntry) (rc : Int)
    (hrun : lookupKey s.running id = some d)
    (hnodup : (s.running.map Prod.fst).Nodup)
    (hdone : lookupKey s.doneArea id = some en)
    (hsub : en.sub = none) :
    ∃ t : State, move_job_to_done s id = (t, none) ∧
      lookupKey t.running id = none ∧
      lookupKey t.doneArea id = some ⟨en.top, some { d with ready := false }⟩ ∧
      lookupKey (write_status_file t.doneArea id rc) id =
        some ⟨{ en.top with doneFile := some (statusText rc) },
              some { d with ready := false }⟩ := by
  have hkeys : ((setKey s.running id { d with ready := false }).map Prod.fst).Nodup := by
    rw [keys_setKey]
    exact hnodup
  refine ⟨⟨eraseKey (setKey s.running id { d with ready := false }) id,
           setKey s.doneArea id ⟨en.top, some { d with ready := false }⟩,
           s.running_dirs, s.processes, s.log⟩, ?_, ?_, ?_, ?_⟩
  · rw [move_job_to_done, hrun]
    simp only [hdone, hsub]
  · exact lookupKey_eraseKey_self hkeys
  · exact lookupKey_setKey_self s.doneArea _ hdone
  · have h1 : lookupKey (setKey s.doneArea id (⟨en.top, some { d with ready := false }⟩ : DoneEntry)) id
        = some ⟨en.top, some { d with ready := false }⟩ :=
      lookupKey_setKey_self s.doneArea _ hdone
    rw [write_status_file, h1]
    exact lookupKey_setKey_self _ _ h1

/-- Witness for C10 at a concrete state: job `a` finished while a stale
`done/a` directory is still present. -/
theorem claim_C10_witness :
    ∃ t : State,
      move_job_to_done
        ⟨[("a", ⟨true, true, true, true, none⟩)],
         [("a", ⟨⟨false, true, true, true, some "0\n"⟩, none⟩)], ["a"],
         [⟨"a", some 2⟩], []⟩ "a" = (t, none) ∧
      lookupKey t.running "a" = none ∧
      lookupKey t.doneArea "a" =
        some ⟨⟨false, true, true, true, some "0\n"⟩, some ⟨false, true, true, true, none⟩⟩ ∧
      lookupKey (write_status_file t.doneArea "a" 2) "a" =
        some ⟨⟨false, true, true, true, some (statusText 2)⟩,
              some ⟨false, true, true, true, none⟩⟩ :=
  claim_C10
    ⟨[("a", ⟨true, true, true, true, none⟩)],
     [("a", ⟨⟨false, true, true, true, some "0\n"⟩, none⟩)], ["a"], [⟨"a", some 2⟩], []⟩
    "a" ⟨true, true, true, true, none⟩ ⟨⟨false, true, true, true, some "0\n"⟩, none⟩ 2
    (by decide) (by decide) (by decide) (by decide)

/-! ### Discovery-pass helpers -/

theorem setKey_append_fresh {α : Type} {l : List (JobId × α)} {id : JobId} (v w : α)
    (h : id ∉ l.map Prod.fst) : setKey (l ++ [(id, v)]) id w = l ++ [(id, w)] := by
  induction l with
  | nil => simp [setKey]
  | cons kv rest ih =>
    obtain ⟨k, v'⟩ := kv
    simp only [List.map_cons, List.mem_cons] at h
    push_neg at h
    simp [setKey, Ne.symm h.1, ih h.2]

theorem eraseKey_setKey {α : Type} (l : List (JobId × α)) (id : JobId) (w : α) :
    eraseKey (setKey l id w) id = eraseKey l id := by
  induction l with
  | nil => rfl
  | cons kv rest ih =>
    obtain ⟨k, v⟩ := kv
    by_cases hk : k = id <;> simp [setKey, eraseKey, hk, ih]

theorem filter_eq_single {p : JobId → Bool} {ks : List JobId} {id : JobId}
    (hnd : ks.Nodup) (hmem : id ∈ ks) (hid : p id = true)
    (hothers : ∀ j ∈ ks, j ≠ id → p j = false) : ks.filter p = [id] := by
  induction ks with
  | nil => simp at hmem
  | cons k rest ih =>
    rw [List.nodup_cons] at hnd
    by_cases hk : k = id
    · subst hk
      have hrest : rest.filter p = [] := by
        rw [List.filter_eq_nil_iff]
        intro j hj
        have hne : j ≠ k := fun he => hnd.1 (he ▸ hj)
        simp [hothers j (List.mem_cons_of_mem _ hj) hne]
      simp [List.filter_cons, hid, hrest]
    · have hmem2 : id ∈ rest := by
        rcases List.mem_cons.mp hmem with h | h
        · exact absurd h.symm hk
        · exact h
      have hk0 : p k = false := hothers k (List.mem_cons_self _ _) hk
      rw [List.filter_cons, if_neg (by simp [hk0])]
      exact ih hnd.2 hmem2
        (fun j hj hne2 => hothers j (List.mem_cons_of_mem _ hj) hne2)

/-- When the given identifier is the only untracked directory in the
running area, the discovery snapshot is exactly that identifier. -/
theorem newWorkSnapshot_single (s : State) (id : JobId)
    (hnodup : (s.running.map Prod.fst).Nodup)
    (hmem : id ∈ s.running.map Prod.fst)
    (hid : id ∉ s.running_dirs)
    (honly : ∀ j ∈ s.running.map Prod.fst, j ≠ id → j ∈ s.running_dirs) :
    newWorkSnapshot s = [id] := by
  refine filter_eq_single hnodup hmem (by simp [hid]) ?_
  intro j hj hne
  simp [honly j hj hne]

theorem newWorkGo_single (s : State) (id : JobId) :
    newWorkGo s [id] = process_new_dir s id := by
  rcases h : process_new_dir s id with ⟨s1, e⟩
  cases e <;> simp [newWorkGo, h]

/-- Writing the status file into a freshly appended done-area entry sets
that entry's top-level `.done` content. -/
theorem write_status_file_append_fresh (da : List (JobId × DoneEntry)) (id : JobId)
    (d1 : JobDir) (sub : Option JobDir) (rc : Int)
    (hfresh : lookupKey da id = none) :
    write_status_file (da ++ [(id, ⟨d1, sub⟩)]) id rc
      = da ++ [(id, ⟨{ d1 with doneFile := some (statusText rc) }, sub⟩)] := by
  have hfreshKeys : id ∉ da.map Prod.fst := (lookupKey_eq_none _ _).mp hfresh
  have hl : lookupKey (da ++ [(id, (⟨d1, sub⟩ : DoneEntry))]) id = some ⟨d1, sub⟩ := by
    rw [lookupKey_append, hfresh]
    simp [lookupKey]
  rw [write_status_file, hl]
  exact setKey_append_fresh _ _ hfreshKeys

/-- Evaluation of the degenerate-job path when the identifier does not yet
appear in the done area. -/
theorem degenerateJob_fresh (s : State) (id : JobId) (d : JobDir)
    (hrun : lookupKey s.running id = some d)
    (hfresh : lookupKey s.doneArea id = none) :
    degenerateJob s id =
      (⟨eraseKey s.running id,
        s.doneArea ++
          [(id, ⟨{ d with ready := false, doneFile := some (statusText (-111)) }, none⟩)],
        s.running_dirs, s.processes,
        s.log ++ [⟨.warning, "No job file found in " ++ id ++ ". Moving to done."⟩]⟩,
        none) := by
  rw [degenerateJob, move_job_to_done]
  simp only [logAdd_running, hrun, logAdd_doneArea, hfresh]
  rw [write_status_file_append_fresh s.doneArea id _ none (-111) hfresh, eraseKey_setKey]
  simp [logAdd]

/-- The log entries the discovery loop writes for a candidate before it
decides whether to start it. -/
def discoveryLogs (id : JobId) (d : JobDir) : List LogEntry :=
  ⟨.info, "New directory discovered " ++ id⟩ ::
    (if d.doneFile.isSome then
      [⟨.warning, "Found old .done file in new job " ++ id ++ ". Removing."⟩]
    else [])

/-- For an untracked candidate whose ready marker is present, discovery
logs, adds the identifier to `running_dirs`, and calls `do_work`. -/
theorem process_new_dir_ready (s : State) (id : JobId) (d : JobDir)
    (huntracked : id ∉ s.running_dirs)
    (hrun : lookupKey s.running id = some d) (hready : d.ready = true) :
    process_new_dir s id =
      do_work ⟨s.running, s.doneArea, s.running_dirs ++ [id], s.processes,
               s.log ++ discoveryLogs id d⟩ id := by
  rw [process_new_dir, if_neg huntracked]
  by_cases hdf : d.doneFile.isSome <;>
    simp [logAdd_running, hrun, hready, hdf, discoveryLogs, logAdd]

theorem do_work_nojob (s : State) (id : JobId) (d : JobDir)
    (hrun : lookupKey s.running id = some d) (hjob : d.job = false) :
    do_work s id = degenerateJob s id := by
  rw [do_work, hrun]
  simp [hjob]

theorem do_work_job (s : State) (id : JobId) (d : JobDir)
    (hrun : lookupKey s.running id = some d) (hjob : d.job = true) :
    do_work s id =
      ({ s with running := setKey s.running id { d with jobOut := true, jobErr := true },
                processes := s.processes ++ [⟨id, none⟩],
                log := s.log ++ [⟨.info, "Starting work in " ++ id⟩] }, none) := by
  rw [do_work, hrun]
  simp [hjob, logAdd]

/-! ### Claim C2 — degenerate jobs -/

/-- Claim C2: a job directory that is the discovery candidate of this pass,
has its ready marker but no `job` executable, is handled in that same
discovery pass without spawning anything: the directory is relocated to
`done/`, the done marker there contains the sentinel `-111` (as decimal
text plus newline), `job.out`/`job.err` keep whatever (absent) state they
had, and the process collection is left exactly as it was, so the job never
appears in it. -/
theorem claim_C2 (s : State) (id : JobId) (d : JobDir)
    (hrun : lookupKey s.running id = some d)
    (hready : d.ready = true) (hjob : d.job = false)
    (hnodup : (s.running.map Prod.fst).Nodup)
    (huntracked : id ∉ s.running_dirs)
    (honly : ∀ j ∈ s.running.map Prod.fst, j ≠ id → j ∈ s.running_dirs)
    (hfresh : lookupKey s.doneArea id = none) :
    ∃ t : State, check_for_new_work s = (t, none) ∧
      lookupKey t.running id = none ∧
      lookupKey t.doneArea id =
        some ⟨{ d with ready := false, doneFile := some (statusText (-111)) }, none⟩ ∧
      t.processes = s.processes := by
  rw [check_for_new_work,
    newWorkSnapshot_single s id hnodup (lookupKey_isSome_mem hrun) huntracked honly,
    newWorkGo_single, process_new_dir_ready s id d huntracked hrun hready,
    do_work_nojob ⟨s.running, s.doneArea, s.running_dirs ++ [id], s.processes,
      s.log ++ discoveryLogs id d⟩ id d hrun hjob,
    degenerateJob_fresh ⟨s.running, s.doneArea, s.running_dirs ++ [id], s.processes,
      s.log ++ discoveryLogs id d⟩ id d hrun hfresh]
  dsimp only
  refine ⟨_, rfl, ?_, ?_, rfl⟩
  · exact lookupKey_eraseKey_self hnodup
  · rw [lookupKey_append, hfresh]
    simp [lookupKey]

/-- Witness for C2: job `a` is ready but has no `job` file. -/
theorem claim_C2_witness :
    ∃ t : State,
      check_for_new_work ⟨[("a", ⟨true, false, false, false, none⟩)], [], [], [], []⟩ =
        (t, none) ∧
      lookupKey t.running "a" = none ∧
      lookupKey t.doneArea "a" =
        some ⟨⟨false, false, false, false, some (statusText (-111))⟩, none⟩ ∧
      t.processes = [] :=
  claim_C2 ⟨[("a", ⟨true, false, false, false, none⟩)], [], [], [], []⟩ "a"
    ⟨true, false, false, false, none⟩
    (by decide) (by decide) (by decide) (by decide) (by decide)
    (by intro j hj hne; simp at hj; exact absurd hj hne) (by decide)

/-! ### Claim C7 — stale done marker on a new job -/

/-- Claim C7: an untracked job directory carrying a leftover `.done` file is
logged with a warning but *not* treated as already complete: in the same
pass the candidate is still evaluated for its ready marker, and since the
marker is present the job is admitted (tracked) and launched normally; the
stale `.done` file itself is left in place and the done area untouched. -/
theorem claim_C7 (s : State) (id : JobId) (d : JobDir) (c : String)
    (hrun : lookupKey s.running id = some d)
    (hready : d.ready = true) (hjob : d.job = true) (hstale : d.doneFile = some c)
    (hnodup : (s.running.map Prod.fst).Nodup)
    (huntracked : id ∉ s.running_dirs)
    (honly : ∀ j ∈ s.running.map Prod.fst, j ≠ id → j ∈ s.running_dirs) :
    ∃ t : State, check_for_new_work s = (t, none) ∧
      t.log = s.log ++
        [⟨.info, "New directory discovered " ++ id⟩,
         ⟨.warning, "Found old .done file in new job " ++ id ++ ". Removing."⟩,
         ⟨.info, "Starting work in " ++ id⟩] ∧
      lookupKey t.running id =
        some { d with jobOut := true, jobErr := true } ∧
      t.doneArea = s.doneArea ∧
      t.running_dirs = s.running_dirs ++ [id] ∧
      t.processes = s.processes ++ [⟨id, none⟩] := by
  rw [check_for_new_work,
    newWorkSnapshot_single s id hnodup (lookupKey_isSome_mem hrun) huntracked honly,
    newWorkGo_single, process_new_dir_ready s id d huntracked hrun hready,
    do_work_job ⟨s.running, s.doneArea, s.running_dirs ++ [id], s.processes,
      s.log ++ discoveryLogs id d⟩ id d hrun hjob]
  dsimp only
  refine ⟨_, rfl, ?_, ?_, rfl, rfl, rfl⟩
  · simp [discoveryLogs, hstale]
  · exact lookupKey_setKey_self s.running _ hrun

/-- Witness for C7: job `b` arrives with both a stale `.done` file and a
ready marker, and gets launched anyway. -/
theorem claim_C7_witness :
    ∃ t : State,
      check_for_new_work ⟨[("b", ⟨true, true, false, false, some "9\n"⟩)], [], [], [], []⟩ =
        (t, none) ∧
      t.log = [] ++
        [⟨.info, "New directory discovered " ++ "b"⟩,
         ⟨.warning, "Found old .done file in new job " ++ "b" ++ ". Removing."⟩,
         ⟨.info, "Starting work in " ++ "b"⟩] ∧
      lookupKey t.running "b" = some ⟨true, true, true, true, some "9\n"⟩ ∧
      t.doneArea = [] ∧
      t.running_dirs = [] ++ ["b"] ∧
      t.processes = [] ++ [⟨"b", none⟩] :=
  claim_C7 ⟨[("b", ⟨true, true, false, false, some "9\n"⟩)], [], [], [], []⟩ "b"
    ⟨true, true, false, false, some "9\n"⟩ "9\n"
    (by decide) (by decide) (by decide) (by decide) (by decide) (by decide)
    (by intro j hj hne; simp at hj; exact absurd hj hne)

/-! ### Claim C1 — counterexample to "within one subsequent cycle" -/

/-- Counterexample to claim C1 as stated: jobs `a` and `b` were both
launched (ready markers present, runnable executables) and both children
have already exited with code 0; yet after one full cycle job `b` is still
under `running/`, absent from `done/`, its ready marker still present, and
its handle still in the process collection — because removing `a`'s handle
during the reaper's iteration shifted the list and `b` was skipped, so not
every live handle received an exit-status check in that invocation. -/
theorem claim_C1_counterexample :
    lookupKey (cycle ⟨[("a", ⟨true, true, true, true, none⟩),
        ("b", ⟨true, true, true, true, none⟩)], [], ["a", "b"],
        [⟨"a", some 0⟩, ⟨"b", some 0⟩], []⟩).running "b" =
      some ⟨true, true, true, true, none⟩ ∧
    lookupKey (cycle ⟨[("a", ⟨true, true, true, true, none⟩),
        ("b", ⟨true, true, true, true, none⟩)], [], ["a", "b"],
        [⟨"a", some 0⟩, ⟨"b", some 0⟩], []⟩).doneArea "b" = none ∧
    (cycle ⟨[("a", ⟨true, true, true, true, none⟩),
        ("b", ⟨true, true, true, true, none⟩)], [], ["a", "b"],
        [⟨"a", some 0⟩, ⟨"b", some 0⟩], []⟩).processes = [⟨"b", some 0⟩] := by
  decide

/-! ### Claim C3 — counterexample: a tracked identifier with no handle -/

/-- Counterexample to claim C3 as stated: after the cycle that discovers a
degenerate job (ready marker, no executable), the point between cycles has
`a` still in the tracked set while the process collection is empty, so not
every tracked identifier has exactly one process handle. -/
theorem claim_C3_counterexample :
    (cycle ⟨[("a", ⟨true, false, false, false, none⟩)], [], [], [], []⟩).running_dirs
        = ["a"] ∧
    (cycle ⟨[("a", ⟨true, false, false, false, none⟩)], [], [], [], []⟩).processes = [] := by
  decide

/-! ### Claim C5 — loop-level exception containment -/

/-- The discovery-then-reaping body of one cycle, before the loop-level
`try/except`: the state it produces and the exception it raises, if any. -/
def cyclePhases (s : State) : State × Option Err :=
  match check_for_new_work s with
  | (s1, some e) => (s1, some e)
  | (s1, none) => check_for_done_work s1

/-- Claim C5: any exception `e` raised during a cycle's discovery or
reaping phase is caught at the loop level: the cycle's result is exactly
the partial state at the raise with one critical log entry appended, and
the loop proceeds to its next cycle regardless — iterating the loop always
just composes `cycle`, so no phase exception terminates it. -/
theorem claim_C5 (s s' : State) (e : Err) (n : Nat)
    (h : cyclePhases s = (s', some e)) :
    cycle s = logAdd s' .critical (errMsg e) ∧
    (cycle s).log = s'.log ++ [⟨.critical, errMsg e⟩] ∧
    loop (n + 1) s = loop n (cycle s) := by
  have hc : cycle s = logAdd s' .critical (errMsg e) := by
    rw [cycle]
    rw [cyclePhases] at h
    rcases h1 : check_for_new_work s with ⟨s1, e1⟩
    rw [h1] at h
    cases e1 with
    | some e2 =>
      simp only [Prod.mk.injEq, Option.some.injEq] at h
      simp [h.1, h.2]
    | none =>
      simp only at h
      simp [h]
  exact ⟨hc, by rw [hc, logAdd_log], rfl⟩

/-- Witness for C5: the degenerate job `a` hits a `shutil.move` collision
(the done area already holds `done/a/a`), discovery raises, the loop logs
critical and continues. -/
theorem claim_C5_witness :
    cycle ⟨[("a", ⟨true, false, false, false, none⟩)],
      [("a", ⟨⟨false, false, false, false, some "1\n"⟩,
              some ⟨false, false, false, false, none⟩⟩)], [], [], []⟩ =
      logAdd ⟨[("a", ⟨false, false, false, false, none⟩)],
        [("a", ⟨⟨false, false, false, false, some "1\n"⟩,
                some ⟨false, false, false, false, none⟩⟩)], ["a"], [],
        [⟨.info, "New directory discovered a"⟩,
         ⟨.warning, "No job file found in a. Moving to done."⟩]⟩
        .critical (errMsg (.moveCollision "a")) ∧
    (cycle ⟨[("a", ⟨true, false, false, false, none⟩)],
      [("a", ⟨⟨false, false, false, false, some "1\n"⟩,
              some ⟨false, false, false, false, none⟩⟩)], [], [], []⟩).log =
      [⟨.info, "New directory discovered a"⟩,
       ⟨.warning, "No job file found in a. Moving to done."⟩] ++
        [⟨.critical, errMsg (.moveCollision "a")⟩] ∧
    loop 1 ⟨[("a", ⟨true, false, false, false, none⟩)],
      [("a", ⟨⟨false, false, false, false, some "1\n"⟩,
              some ⟨false, false, false, false, none⟩⟩)], [], [], []⟩ =
      loop 0 (cycle ⟨[("a", ⟨true, false, false, false, none⟩)],
        [("a", ⟨⟨false, false, false, false, some "1\n"⟩,
                some ⟨false, false, false, false, none⟩⟩)], [], [], []⟩) :=
  claim_C5 _ _ (.moveCollision "a") 0 (by decide)

/-! ### The Active-Job-Set consistency invariant (claim C3) -/

/-- The consistency invariant between the tracked set `running_dirs` and
the process collection: directory keys and tracked identifiers are
duplicate-free, no identifier has more than one process handle, and every
handle's identifier is tracked. -/
def Inv (s : State) : Prop :=
  (s.running.map Prod.fst).Nodup ∧
  s.running_dirs.Nodup ∧
  (s.processes.map Proc.jobId).Nodup ∧
  ∀ q ∈ s.processes, q.jobId ∈ s.running_dirs

instance (s : State) : Decidable (Inv s) := by
  unfold Inv
  infer_instance

/-- `move_job_to_done` never touches the tracked set, the process
collection, or the log, and can only shrink the running-area key list. -/
theorem move_job_to_done_frame (s : State) (id : JobId) :
    (move_job_to_done s id).1.running_dirs = s.running_dirs ∧
    (move_job_to_done s id).1.processes = s.processes ∧
    (move_job_to_done s id).1.log = s.log ∧
    ((move_job_to_done s id).1.running.map Prod.fst).Sublist (s.running.map Prod.fst) := by
  rw [move_job_to_done]
  split
  · exact ⟨rfl, rfl, rfl, List.Sublist.refl _⟩
  · dsimp only
    split
    · refine ⟨rfl, rfl, rfl, ?_⟩
      dsimp only
      rw [eraseKey_setKey]
      exact keys_eraseKey_sublist s.running id
    · split
      · refine ⟨rfl, rfl, rfl, ?_⟩
        dsimp only
        rw [eraseKey_setKey]
        exact keys_eraseKey_sublist s.running id
      · refine ⟨rfl, rfl, rfl, ?_⟩
        dsimp only
        rw [keys_setKey]

theorem degenerateJob_frame (s : State) (id : JobId) :
    (degenerateJob s id).1.running_dirs = s.running_dirs ∧
    (degenerateJob s id).1.processes = s.processes ∧
    ((degenerateJob s id).1.running.map Prod.fst).Sublist (s.running.map Prod.fst) := by
  rw [degenerateJob]
  rcases hm : move_job_to_done
      (logAdd s .warning ("No job file found in " ++ id ++ ". Moving to done.")) id
    with ⟨s1, e⟩
  have hf := move_job_to_done_frame
    (logAdd s .warning ("No job file found in " ++ id ++ ". Moving to done.")) id
  rw [hm] at hf
  cases e with
  | some e1 => exact ⟨hf.1, hf.2.1, hf.2.2.2⟩
  | none => exact ⟨hf.1, hf.2.1, hf.2.2.2⟩

/-- `do_work` preserves the invariant, provided the launched identifier is
already tracked and has no existing handle (which is how discovery calls
it). -/
theorem do_work_inv (s : State) (id : JobId) (hInv : Inv s)
    (hid : id ∉ s.processes.map Proc.jobId) (hrd : id ∈ s.running_dirs) :
    Inv (do_work s id).1 := by
  obtain ⟨h1, h2, h3, h4⟩ := hInv
  rw [do_work]
  cases hl : lookupKey s.running id with
  | none =>
    have hf := degenerateJob_frame s id
    exact ⟨(hf.2.2).nodup h1, hf.1 ▸ h2,
      hf.2.1 ▸ h3, fun q hq => hf.1 ▸ h4 q (hf.2.1 ▸ hq)⟩
  | some d =>
    by_cases hj : d.job = true
    · simp only [hj, if_true]
      dsimp only [logAdd]
      refine ⟨?_, h2, ?_, ?_⟩
      · rw [keys_setKey]
        exact h1
      · rw [List.map_append, List.nodup_append]
        refine ⟨h3, List.nodup_singleton _, ?_⟩
        intro x hx
        simp only [List.map_cons, List.map_nil, List.mem_singleton]
        intro hx2
        exact hid (hx2 ▸ hx)
      · intro q hq
        rcases List.mem_append.mp hq with hq1 | hq1
        · exact h4 q hq1
        · simp at hq1
          rw [hq1]
          exact hrd
    · simp only [hj, if_false]
      have hf := degenerateJob_frame s id
      exact ⟨(hf.2.2).nodup h1, hf.1 ▸ h2,
        hf.2.1 ▸ h3, fun q hq => hf.1 ▸ h4 q (hf.2.1 ▸ hq)⟩

/-- Every discovery-loop candidate is handled in one of three ways: it is
already tracked and skipped; or it is evaluated but not started (only log
entries appended); or it is untracked with a ready marker and handed to
`do_work` with the identifier appended to the tracked set. -/
theorem process_new_dir_shape (s : State) (id : JobId) :
    (id ∈ s.running_dirs ∧ process_new_dir s id = (s, none)) ∨
    ((lookupKey s.running id = none ∨
        ∃ d, lookupKey s.running id = some d ∧ d.ready = false) ∧
      ∃ lg : List LogEntry, process_new_dir s id = ({ s with log := s.log ++ lg }, none)) ∨
    (id ∉ s.running_dirs ∧ ∃ d : JobDir, lookupKey s.running id = some d ∧ d.ready = true ∧
      ∃ lg : List LogEntry,
      process_new_dir s id =
        do_work ⟨s.running, s.doneArea, s.running_dirs ++ [id], s.processes,
                 s.log ++ lg⟩ id) := by
  by_cases htr : id ∈ s.running_dirs
  · refine Or.inl ⟨htr, ?_⟩
    rw [process_new_dir, if_pos htr]
  · right
    cases hl : lookupKey s.running id with
    | none =>
      left
      refine ⟨Or.inl rfl,
        [⟨.info, "New directory discovered " ++ id⟩,
         ⟨.info, "Not starting work, no .ready file found in " ++ id⟩], ?_⟩
      rw [process_new_dir, if_neg htr]
      simp [hl, logAdd]
    | some d =>
      by_cases hr : d.ready = true
      · right
        exact ⟨htr, d, rfl, hr, discoveryLogs id d, process_new_dir_ready s id d htr hl hr⟩
      · left
        have hrf : d.ready = false := by
          cases hb : d.ready
          · rfl
          · exact absurd hb hr
        refine ⟨Or.inr ⟨d, rfl, hrf⟩, ?_⟩
        by_cases hdf : d.doneFile.isSome
        · refine ⟨[⟨.info, "New directory discovered " ++ id⟩,
                   ⟨.warning, "Found old .done file in new job " ++ id ++ ". Removing."⟩,
                   ⟨.info, "Not starting work, no .ready file found in " ++ id⟩], ?_⟩
          rw [process_new_dir, if_neg htr]
          simp [hl, hdf, hr, logAdd]
        · refine ⟨[⟨.info, "New directory discovered " ++ id⟩,
                   ⟨.info, "Not starting work, no .ready file found in " ++ id⟩], ?_⟩
          rw [process_new_dir, if_neg htr]
          simp [hl, hdf, hr, logAdd]

/-- One discovery-loop candidate preserves the invariant. -/
theorem process_new_dir_inv (s : State) (id : JobId) (hInv : Inv s) :
    Inv (process_new_dir s id).1 := by
  rcases process_new_dir_shape s id with ⟨-, h⟩ | ⟨-, lg, h⟩ | ⟨htr, d, hlk, hrdy, lg, h⟩
  · rw [h]
    exact hInv
  · rw [h]
    exact hInv
  · rw [h]
    obtain ⟨h1, h2, h3, h4⟩ := hInv
    have hid : id ∉ s.processes.map Proc.jobId := by
      intro hmem
      rcases List.mem_map.mp hmem with ⟨q, hq, hq2⟩
      exact htr (hq2 ▸ h4 q hq)
    apply do_work_inv
    · refine ⟨h1, ?_, h3, ?_⟩
      · rw [List.nodup_append]
        refine ⟨h2, List.nodup_singleton _, ?_⟩
        intro x hx hx2
        rw [List.mem_singleton] at hx2
        exact htr (hx2 ▸ hx)
      · intro q hq
        exact List.mem_append_left _ (h4 q hq)
    · exact hid
    · exact List.mem_append_right _ (List.mem_singleton.mpr rfl)

theorem newWorkGo_inv (l : List JobId) : ∀ s : State, Inv s → Inv (newWorkGo s l).1 := by
  induction l with
  | nil => intro s h; exact h
  | cons id rest ih =>
    intro s h
    rw [newWorkGo]
    rcases hp : process_new_dir s id with ⟨s1, e⟩
    have h1 : Inv s1 := by
      have := process_new_dir_inv s id h
      rw [hp] at this
      exact this
    cases e with
    | some e1 => exact h1
    | none => exact ih s1 h1

theorem check_for_new_work_inv (s : State) (h : Inv s) :
    Inv (check_for_new_work s).1 :=
  newWorkGo_inv (newWorkSnapshot s) s h

/-! Step equations for the reaper loop. -/

theorem doneWorkGo_nil (s : State) (acc : List Proc) :
    doneWorkGo s acc [] = ({ s with processes := acc.reverse }, none) := rfl

theorem doneWorkGo_skip (s : State) (acc : List Proc) (p : Proc) (rest : List Proc)
    (hst : p.status = none) :
    doneWorkGo s acc (p :: rest) = doneWorkGo s (p :: acc) rest := by
  rw [doneWorkGo, hst]

theorem doneWorkGo_moveErr (s : State) (acc : List Proc) (p : Proc) (rest : List Proc)
    (rc : Int) (s1 : State) (e : Err) (hst : p.status = some rc)
    (hmv : move_job_to_done (logAdd s .info (reapMsg p rc)) p.jobId = (s1, some e)) :
    doneWorkGo s acc (p :: rest) =
      ({ s1 with processes := acc.reverse ++ p :: rest }, some e) := by
  rw [doneWorkGo, hst]
  dsimp only
  rw [hmv]

theorem doneWorkGo_reap_last (s : State) (acc : List Proc) (p : Proc)
    (rc : Int) (s1 : State) (hst : p.status = some rc)
    (hmv : move_job_to_done (logAdd s .info (reapMsg p rc)) p.jobId = (s1, none))
    (htr : p.jobId ∈ s1.running_dirs) :
    doneWorkGo s acc [p] =
      ({ s1 with doneArea := write_status_file s1.doneArea p.jobId rc,
                 running_dirs := s1.running_dirs.erase p.jobId,
                 processes := acc.reverse }, none) := by
  rw [doneWorkGo, hst]
  dsimp only
  rw [hmv]
  dsimp only
  rw [if_pos htr]

theorem doneWorkGo_reap_skip (s : State) (acc : List Proc) (p q : Proc)
    (rest2 : List Proc) (rc : Int) (s1 : State) (hst : p.status = some rc)
    (hmv : move_job_to_done (logAdd s .info (reapMsg p rc)) p.jobId = (s1, none))
    (htr : p.jobId ∈ s1.running_dirs) :
    doneWorkGo s acc (p :: q :: rest2) =
      doneWorkGo { s1 with doneArea := write_status_file s1.doneArea p.jobId rc,
                           running_dirs := s1.running_dirs.erase p.jobId }
        (q :: acc) rest2 := by
  rw [doneWorkGo, hst]
  dsimp only
  rw [hmv]
  dsimp only
  rw [if_pos htr]

theorem doneWorkGo_keyErr (s : State) (acc : List Proc) (p : Proc) (rest : List Proc)
    (rc : Int) (s1 : State) (hst : p.status = some rc)
    (hmv : move_job_to_done (logAdd s .info (reapMsg p rc)) p.jobId = (s1, none))
    (htr : p.jobId ∉ s1.running_dirs) :
    doneWorkGo s acc (p :: rest) =
      ({ s1 with doneArea := write_status_file s1.doneArea p.jobId rc,
                 processes := acc.reverse ++ rest }, some (.keyError p.jobId)) := by
  rw [doneWorkGo, hst]
  dsimp only
  rw [hmv]
  dsimp only
  rw [if_neg htr]

theorem nodup_map_middle {α β : Type} (f : α → β) (l1 l2 : List α) (a b : α)
    (h : ((l1 ++ a :: l2).map f).Nodup) (hb : b ∈ l1 ++ l2) : f b ≠ f a := by
  rw [List.map_append, List.map_cons, List.nodup_append] at h
  obtain ⟨hn1, hn2, hdisj⟩ := h
  rcases List.mem_append.mp hb with hb1 | hb1
  · intro he
    exact hdisj (List.mem_map_of_mem f hb1) (by rw [he]; exact List.mem_cons_self _ _)
  · rw [List.nodup_cons] at hn2
    intro he
    exact hn2.1 (he ▸ List.mem_map_of_mem f hb1)

/-- The identifiers of the elements around a removed middle element remain
tracked after erasing the removed identifier. -/
theorem mem_erase_of_middle (acc rest : List Proc) (p : Proc) (dirs : List JobId)
    (h3 : ((acc.reverse ++ p :: rest).map Proc.jobId).Nodup)
    (h4 : ∀ q ∈ acc.reverse ++ p :: rest, q.jobId ∈ dirs) :
    ∀ q ∈ acc.reverse ++ rest, q.jobId ∈ dirs.erase p.jobId := by
  intro q hq
  have hne : q.jobId ≠ p.jobId :=
    nodup_map_middle Proc.jobId acc.reverse rest p q h3 hq
  have hmem : q ∈ acc.reverse ++ p :: rest := by
    rcases List.mem_append.mp hq with h | h
    · exact List.mem_append_left _ h
    · exact List.mem_append_right _ (List.mem_cons_of_mem _ h)
  exact (List.mem_erase_of_ne hne).mpr (h4 q hmem)

theorem nodup_map_remove_middle (acc rest : List Proc) (p : Proc)
    (h3 : ((acc.reverse ++ p :: rest).map Proc.jobId).Nodup) :
    ((acc.reverse ++ rest).map Proc.jobId).Nodup := by
  have hsub : List.Sublist (acc.reverse ++ rest) (acc.reverse ++ p :: rest) :=
    List.Sublist.append (List.Sublist.refl acc.reverse) (List.sublist_cons_self p rest)
  exact (hsub.map Proc.jobId).nodup h3

theorem doneWorkGo_inv (s : State) (acc l : List Proc) :
    (s.running.map Prod.fst).Nodup →
    s.running_dirs.Nodup →
    ((acc.reverse ++ l).map Proc.jobId).Nodup →
    (∀ q ∈ acc.reverse ++ l, q.jobId ∈ s.running_dirs) →
    Inv (doneWorkGo s acc l).1 := by
  induction s, acc, l using doneWorkGo.induct with
  | case1 s acc =>
    intro h1 h2 h3 h4
    rw [doneWorkGo_nil]
    exact ⟨h1, h2, by simpa using h3, fun q hq => h4 q (by simpa using hq)⟩
  | case2 s acc p rest hst ih =>
    intro h1 h2 h3 h4
    have hshift : (p :: acc).reverse ++ rest = acc.reverse ++ p :: rest := by simp
    rw [doneWorkGo_skip s acc p rest hst]
    exact ih h1 h2 (by rw [hshift]; exact h3) (by rw [hshift]; exact h4)
  | case3 s acc p rest rc hst s0 s1 e hmv =>
    intro h1 h2 h3 h4
    have hmv2 : move_job_to_done (logAdd s .info (reapMsg p rc)) p.jobId =
        (s1, some e) := hmv
    rw [doneWorkGo_moveErr s acc p rest rc s1 e hst hmv2]
    have hf := move_job_to_done_frame (logAdd s .info (reapMsg p rc)) p.jobId
    rw [hmv2] at hf
    obtain ⟨hfrd, hfpr, hflog, hfkeys⟩ := hf
    simp only [logAdd_running_dirs, logAdd_processes, logAdd_running] at hfrd hfpr hfkeys
    exact ⟨hfkeys.nodup h1, hfrd ▸ h2, h3, fun q hq => hfrd ▸ h4 q hq⟩
  | case4 s acc p rc hst s0 s1 hmv s2 htr =>
    intro h1 h2 h3 h4
    have hmv2 : move_job_to_done (logAdd s .info (reapMsg p rc)) p.jobId =
        (s1, none) := hmv
    have htr2 : p.jobId ∈ s1.running_dirs := htr
    rw [doneWorkGo_reap_last s acc p rc s1 hst hmv2 htr2]
    have hf := move_job_to_done_frame (logAdd s .info (reapMsg p rc)) p.jobId
    rw [hmv2] at hf
    obtain ⟨hfrd, hfpr, hflog, hfkeys⟩ := hf
    simp only [logAdd_running_dirs, logAdd_processes, logAdd_running] at hfrd hfpr hfkeys
    refine ⟨hfkeys.nodup h1, hfrd ▸ h2.erase _, ?_, ?_⟩
    · have hnd : (acc.reverse.map Proc.jobId).Nodup :=
        ((List.sublist_append_left _ _).map Proc.jobId).nodup h3
      simpa using hnd
    · intro q hq
      simp only at hq
      have hq2 : q ∈ acc.reverse ++ ([] : List Proc) := by simpa using hq
      exact hfrd ▸ mem_erase_of_middle acc [] p s.running_dirs h3 h4 q hq2
  | case5 s acc p rc hst s0 s1 hmv s2 htr s3 q2 rest2 ih =>
    intro h1 h2 h3 h4
    have hmv2 : move_job_to_done (logAdd s .info (reapMsg p rc)) p.jobId =
        (s1, none) := hmv
    have htr2 : p.jobId ∈ s1.running_dirs := htr
    rw [doneWorkGo_reap_skip s acc p q2 rest2 rc s1 hst hmv2 htr2]
    have hf := move_job_to_done_frame (logAdd s .info (reapMsg p rc)) p.jobId
    rw [hmv2] at hf
    obtain ⟨hfrd, hfpr, hflog, hfkeys⟩ := hf
    simp only [logAdd_running_dirs, logAdd_processes, logAdd_running] at hfrd hfpr hfkeys
    apply ih
    · show (s1.running.map Prod.fst).Nodup
      exact hfkeys.nodup h1
    · show (s1.running_dirs.erase p.jobId).Nodup
      rw [hfrd]
      exact h2.erase _
    · have hnd := nodup_map_remove_middle acc (q2 :: rest2) p h3
      simpa using hnd
    · show ∀ q ∈ (q2 :: acc).reverse ++ rest2, q.jobId ∈ s1.running_dirs.erase p.jobId
      intro q hq
      rw [hfrd]
      have hq2 : q ∈ acc.reverse ++ q2 :: rest2 := by simpa using hq
      exact mem_erase_of_middle acc (q2 :: rest2) p s.running_dirs h3 h4 q hq2
  | case6 s acc p rest rc hst s0 s1 hmv s2 htr =>
    intro h1 h2 h3 h4
    have hmv2 : move_job_to_done (logAdd s .info (reapMsg p rc)) p.jobId =
        (s1, none) := hmv
    have htr2 : p.jobId ∉ s1.running_dirs := htr
    rw [doneWorkGo_keyErr s acc p rest rc s1 hst hmv2 htr2]
    have hf := move_job_to_done_frame (logAdd s .info (reapMsg p rc)) p.jobId
    rw [hmv2] at hf
    obtain ⟨hfrd, hfpr, hflog, hfkeys⟩ := hf
    simp only [logAdd_running_dirs, logAdd_processes, logAdd_running] at hfrd hfpr hfkeys
    refine ⟨hfkeys.nodup h1, hfrd ▸ h2, ?_, ?_⟩
    · exact nodup_map_remove_middle acc rest p h3
    · intro q hq
      have hq2 : q ∈ acc.reverse ++ p :: rest := by
        rcases List.mem_append.mp hq with h | h
        · exact List.mem_append_left _ h
        · exact List.mem_append_right _ (List.mem_cons_of_mem _ h)
      exact hfrd ▸ h4 q hq2

theorem check_for_done_work_inv (s : State) (h : Inv s) :
    Inv (check_for_done_work s).1 := by
  obtain ⟨h1, h2, h3, h4⟩ := h
  exact doneWorkGo_inv s [] s.processes h1 h2 (by simpa using h3)
    (fun q hq => h4 q (by simpa using hq))

/-- One cycle of the polling loop preserves the invariant. -/
theorem cycle_inv (s : State) (h : Inv s) : Inv (cycle s) := by
  rw [cycle]
  split
  next s1 e1 hc =>
    have hInv1 := check_for_new_work_inv s h
    rw [hc] at hInv1
    exact hInv1
  next s1 hc =>
    have hInv1 := check_for_new_work_inv s h
    rw [hc] at hInv1
    split
    next s2 e2 hd =>
      have hInv2 := check_for_done_work_inv s1 hInv1
      rw [hd] at hInv2
      exact hInv2
    next s2 hd =>
      have hInv2 := check_for_done_work_inv s1 hInv1
      rw [hd] at hInv2
      exact hInv2

theorem loop_inv (n : Nat) (s : State) (h : Inv s) : Inv (loop n s) := by
  induction n generalizing s with
  | zero => exact h
  | succ n ih => exact ih (cycle s) (cycle_inv s h)

/-- Amended claim C3: at every point between cycles the Active Job Set is
consistent with the spawned children in the weaker sense the code actually
maintains: no tracked identifier ever has more than one live-or-reaping
process handle, and every handle's identifier is tracked — removal of the
identifier and discarding of the handle happen in the same reaper pass, so
no between-cycles state shows a handle whose identifier is untracked.  (The
original "exactly one handle per tracked identifier" fails: identifiers of
completed degenerate jobs stay tracked with no handle forever.) -/
theorem claim_C3 (s : State) (n : Nat) (hInv : Inv s) :
    ((loop n s).processes.map Proc.jobId).Nodup ∧
    (∀ q ∈ (loop n s).processes, q.jobId ∈ (loop n s).running_dirs) := by
  obtain ⟨-, -, h3, h4⟩ := loop_inv n s hInv
  exact ⟨h3, h4⟩

/-- Witness for the amended C3: two cycles from a mixed state (one
degenerate job, one launched job with a live child). -/
theorem claim_C3_witness :
    ((loop 2 ⟨[("a", ⟨true, false, false, false, none⟩),
               ("b", ⟨true, true, false, false, none⟩)], [], [], [], []⟩).processes.map
        Proc.jobId).Nodup ∧
    (∀ q ∈ (loop 2 ⟨[("a", ⟨true, false, false, false, none⟩),
               ("b", ⟨true, true, false, false, none⟩)], [], [], [], []⟩).processes,
      q.jobId ∈ (loop 2 ⟨[("a", ⟨true, false, false, false, none⟩),
               ("b", ⟨true, true, false, false, none⟩)], [], [], [], []⟩).running_dirs) :=
  claim_C3 ⟨[("a", ⟨true, false, false, false, none⟩),
             ("b", ⟨true, true, false, false, none⟩)], [], [], [], []⟩ 2 (by decide)

/-! ### Per-identifier frame lemmas: what one cycle can do to a directory
it does not own -/

theorem move_job_to_done_lookup_ne (s : State) (j id : JobId) (hne : j ≠ id) :
    lookupKey (move_job_to_done s j).1.running id = lookupKey s.running id := by
  rw [move_job_to_done]
  split
  · rfl
  · dsimp only
    split
    · dsimp only
      rw [lookupKey_eraseKey_ne _ (Ne.symm hne), lookupKey_setKey_ne _ _ (Ne.symm hne)]
    · split
      · dsimp only
        rw [lookupKey_eraseKey_ne _ (Ne.symm hne), lookupKey_setKey_ne _ _ (Ne.symm hne)]
      · dsimp only
        rw [lookupKey_setKey_ne _ _ (Ne.symm hne)]

theorem degenerateJob_err (s : State) (j : JobId) (s1 : State) (e : Err)
    (hmv : move_job_to_done
        (logAdd s .warning ("No job file found in " ++ j ++ ". Moving to done.")) j =
      (s1, some e)) :
    degenerateJob s j = (s1, some e) := by
  rw [degenerateJob]
  rw [hmv]

theorem degenerateJob_ok (s : State) (j : JobId) (s1 : State)
    (hmv : move_job_to_done
        (logAdd s .warning ("No job file found in " ++ j ++ ". Moving to done.")) j =
      (s1, none)) :
    degenerateJob s j =
      ({ s1 with doneArea := write_status_file s1.doneArea j (-111) }, none) := by
  rw [degenerateJob]
  rw [hmv]

theorem degenerateJob_id_frame (s : State) (j id : JobId) (hne : j ≠ id) :
    (degenerateJob s j).1.running_dirs = s.running_dirs ∧
    lookupKey (degenerateJob s j).1.running id = lookupKey s.running id ∧
    (degenerateJob s j).1.processes = s.processes := by
  rcases hmv : move_job_to_done
      (logAdd s .warning ("No job file found in " ++ j ++ ". Moving to done.")) j
    with ⟨s1, e⟩
  have hfr := move_job_to_done_frame
    (logAdd s .warning ("No job file found in " ++ j ++ ". Moving to done.")) j
  have hlk := move_job_to_done_lookup_ne
    (logAdd s .warning ("No job file found in " ++ j ++ ". Moving to done.")) j id hne
  rw [hmv] at hfr hlk
  cases e with
  | some e1 =>
    rw [degenerateJob_err s j s1 e1 hmv]
    exact ⟨hfr.1, hlk, hfr.2.1⟩
  | none =>
    rw [degenerateJob_ok s j s1 hmv]
    exact ⟨hfr.1, hlk, hfr.2.1⟩

theorem do_work_nodir (s : State) (j : JobId) (hl : lookupKey s.running j = none) :
    do_work s j = degenerateJob s j := by
  rw [do_work, hl]

theorem do_work_id_frame (s : State) (j id : JobId) (hne : j ≠ id) :
    (do_work s j).1.running_dirs = s.running_dirs ∧
    lookupKey (do_work s j).1.running id = lookupKey s.running id ∧
    (∀ q ∈ (do_work s j).1.processes, q ∈ s.processes ∨ q.jobId = j) := by
  cases hl : lookupKey s.running j with
  | none =>
    rw [do_work_nodir s j hl]
    have hf := degenerateJob_id_frame s j id hne
    refine ⟨hf.1, hf.2.1, fun q hq => Or.inl ?_⟩
    rw [hf.2.2] at hq
    exact hq
  | some d =>
    by_cases hj : d.job = true
    · rw [do_work_job s j d hl hj]
      refine ⟨rfl, ?_, ?_⟩
      · exact lookupKey_setKey_ne s.running _ (Ne.symm hne)
      · intro q hq
        rcases List.mem_append.mp hq with h | h
        · exact Or.inl h
        · rw [List.mem_singleton] at h
          exact Or.inr (by rw [h])
    · have hjf : d.job = false := by
        cases hb : d.job
        · rfl
        · exact absurd hb hj
      rw [do_work_nojob s j d hl hjf]
      have hf := degenerateJob_id_frame s j id hne
      refine ⟨hf.1, hf.2.1, fun q hq => Or.inl ?_⟩
      rw [hf.2.2] at hq
      exact hq

/-- A discovery candidate `j` does not affect the identifier `id`'s
directory, tracking status, or handles, as long as `id` is tracked or its
own directory is not ready (so `j = id` cannot be a launch). -/
theorem process_new_dir_id_effects (s : State) (j id : JobId)
    (hside : id ∈ s.running_dirs ∨
      (∀ d, lookupKey s.running id = some d → d.ready = false)) :
    ((id ∈ (process_new_dir s j).1.running_dirs) ↔ id ∈ s.running_dirs) ∧
    lookupKey (process_new_dir s j).1.running id = lookupKey s.running id ∧
    (∀ q ∈ (process_new_dir s j).1.processes, q ∈ s.processes ∨ q.jobId ≠ id) := by
  rcases process_new_dir_shape s j with ⟨-, h⟩ | ⟨-, lg, h⟩ | ⟨hjuntr, d, hlk, hrdy, lg, h⟩
  · rw [h]
    exact ⟨Iff.rfl, rfl, fun q hq => Or.inl hq⟩
  · rw [h]
    exact ⟨Iff.rfl, rfl, fun q hq => Or.inl hq⟩
  · have hne : j ≠ id := by
      intro he
      subst he
      rcases hside with h1 | h2
      · exact hjuntr h1
      · have hf := h2 d hlk
        rw [hf] at hrdy
        simp at hrdy
    rw [h]
    have hf := do_work_id_frame
      (⟨s.running, s.doneArea, s.running_dirs ++ [j], s.processes, s.log ++ lg⟩ : State)
      j id hne
    refine ⟨?_, hf.2.1, ?_⟩
    · rw [hf.1]
      show id ∈ s.running_dirs ++ [j] ↔ id ∈ s.running_dirs
      constructor
      · intro hm
        rcases List.mem_append.mp hm with hm1 | hm1
        · exact hm1
        · rw [List.mem_singleton] at hm1
          exact absurd hm1.symm hne
      · exact fun hm => List.mem_append_left _ hm
    · intro q hq
      rcases hf.2.2 q hq with hq1 | hq1
      · exact Or.inl hq1
      · exact Or.inr (by rw [hq1]; exact hne)

/-- Evaluation of discovery on an untracked candidate whose ready marker is
absent: log entries only, no error, no other state change. -/
theorem process_new_dir_noready (s : State) (id : JobId) (d : JobDir)
    (huntracked : id ∉ s.running_dirs)
    (hrun : lookupKey s.running id = some d) (hready : d.ready = false) :
    process_new_dir s id =
      ({ s with log := s.log ++ discoveryLogs id d ++
          [⟨.info, "Not starting work, no .ready file found in " ++ id⟩] }, none) := by
  rw [process_new_dir, if_neg huntracked]
  by_cases hdf : d.doneFile.isSome <;>
    simp [hrun, hready, hdf, discoveryLogs, logAdd]

theorem newWorkGo_tracked (id : JobId) (l : List JobId) : ∀ s : State,
    id ∈ s.running_dirs → (∀ q ∈ s.processes, q.jobId ≠ id) →
    id ∈ (newWorkGo s l).1.running_dirs ∧
    lookupKey (newWorkGo s l).1.running id = lookupKey s.running id ∧
    ∀ q ∈ (newWorkGo s l).1.processes, q.jobId ≠ id := by
  induction l with
  | nil =>
    intro s h1 h2
    exact ⟨h1, rfl, h2⟩
  | cons j rest ih =>
    intro s h1 h2
    rw [newWorkGo]
    rcases hp : process_new_dir s j with ⟨s1, e⟩
    have hf := process_new_dir_id_effects s j id (Or.inl h1)
    rw [hp] at hf
    have h1b : id ∈ s1.running_dirs := hf.1.mpr h1
    have h2b : ∀ q ∈ s1.processes, q.jobId ≠ id := by
      intro q hq
      rcases hf.2.2 q hq with h | h
      · exact h2 q h
      · exact h
    cases e with
    | some e1 => exact ⟨h1b, hf.2.1, h2b⟩
    | none =>
      have hr := ih s1 h1b h2b
      exact ⟨hr.1, hr.2.1.trans hf.2.1, hr.2.2⟩

theorem newWorkGo_frozen (id : JobId) (l : List JobId) : ∀ s : State,
    (∀ d, lookupKey s.running id = some d → d.ready = false) →
    id ∉ s.running_dirs → (∀ q ∈ s.processes, q.jobId ≠ id) →
    lookupKey (newWorkGo s l).1.running id = lookupKey s.running id ∧
    id ∉ (newWorkGo s l).1.running_dirs ∧
    ∀ q ∈ (newWorkGo s l).1.processes, q.jobId ≠ id := by
  induction l with
  | nil =>
    intro s h0 h1 h2
    exact ⟨rfl, h1, h2⟩
  | cons j rest ih =>
    intro s h0 h1 h2
    rw [newWorkGo]
    rcases hp : process_new_dir s j with ⟨s1, e⟩
    have hf := process_new_dir_id_effects s j id (Or.inr h0)
    rw [hp] at hf
    have h0b : ∀ d, lookupKey s1.running id = some d → d.ready = false := by
      intro d hd
      rw [hf.2.1] at hd
      exact h0 d hd
    have h1b : id ∉ s1.running_dirs := fun hm => h1 (hf.1.mp hm)
    have h2b : ∀ q ∈ s1.processes, q.jobId ≠ id := by
      intro q hq
      rcases hf.2.2 q hq with h | h
      · exact h2 q h
      · exact h
    cases e with
    | some e1 => exact ⟨hf.2.1, h1b, h2b⟩
    | none =>
      have hr := ih s1 h0b h1b h2b
      exact ⟨hr.1.trans hf.2.1, hr.2.1, hr.2.2⟩

theorem doneWorkGo_id_frame (id : JobId) (s : State) (acc l : List Proc) :
    (∀ q ∈ acc.reverse ++ l, q.jobId ≠ id) →
    ((id ∈ (doneWorkGo s acc l).1.running_dirs) ↔ id ∈ s.running_dirs) ∧
    lookupKey (doneWorkGo s acc l).1.running id = lookupKey s.running id ∧
    (∀ q ∈ (doneWorkGo s acc l).1.processes, q.jobId ≠ id) := by
  induction s, acc, l using doneWorkGo.induct with
  | case1 s acc =>
    intro hacc
    rw [doneWorkGo_nil]
    exact ⟨Iff.rfl, rfl, fun q hq => hacc q (by simpa using hq)⟩
  | case2 s acc p rest hst ih =>
    intro hacc
    rw [doneWorkGo_skip s acc p rest hst]
    exact ih (fun q hq => hacc q (by simpa using hq))
  | case3 s acc p rest rc hst s0 s1 e hmv =>
    intro hacc
    have hmv2 : move_job_to_done (logAdd s .info (reapMsg p rc)) p.jobId =
        (s1, some e) := hmv
    rw [doneWorkGo_moveErr s acc p rest rc s1 e hst hmv2]
    have hpne : p.jobId ≠ id :=
      hacc p (List.mem_append_right _ (List.mem_cons_self _ _))
    have hfr := move_job_to_done_frame (logAdd s .info (reapMsg p rc)) p.jobId
    have hlk := move_job_to_done_lookup_ne (logAdd s .info (reapMsg p rc)) p.jobId id hpne
    rw [hmv2] at hfr hlk
    exact ⟨by rw [hfr.1]; exact Iff.rfl, hlk, fun q hq => hacc q hq⟩
  | case4 s acc p rc hst s0 s1 hmv s2 htr =>
    intro hacc
    have hmv2 : move_job_to_done (logAdd s .info (reapMsg p rc)) p.jobId =
        (s1, none) := hmv
    have htr2 : p.jobId ∈ s1.running_dirs := htr
    rw [doneWorkGo_reap_last s acc p rc s1 hst hmv2 htr2]
    have hpne : p.jobId ≠ id :=
      hacc p (List.mem_append_right _ (List.mem_cons_self _ _))
    have hfr := move_job_to_done_frame (logAdd s .info (reapMsg p rc)) p.jobId
    have hlk := move_job_to_done_lookup_ne (logAdd s .info (reapMsg p rc)) p.jobId id hpne
    rw [hmv2] at hfr hlk
    refine ⟨?_, hlk, ?_⟩
    · show id ∈ s1.running_dirs.erase p.jobId ↔ id ∈ s.running_dirs
      rw [List.mem_erase_of_ne (Ne.symm hpne), hfr.1]
      exact Iff.rfl
    · intro q hq
      exact hacc q (List.mem_append_left _ (by simpa using hq))
  | case5 s acc p rc hst s0 s1 hmv s2 htr s3 q2 rest2 ih =>
    intro hacc
    have hmv2 : move_job_to_done (logAdd s .info (reapMsg p rc)) p.jobId =
        (s1, none) := hmv
    have htr2 : p.jobId ∈ s1.running_dirs := htr
    rw [doneWorkGo_reap_skip s acc p q2 rest2 rc s1 hst hmv2 htr2]
    have hpne : p.jobId ≠ id :=
      hacc p (List.mem_append_right _ (List.mem_cons_self _ _))
    have hfr := move_job_to_done_frame (logAdd s .info (reapMsg p rc)) p.jobId
    have hlk := move_job_to_done_lookup_ne (logAdd s .info (reapMsg p rc)) p.jobId id hpne
    rw [hmv2] at hfr hlk
    have hacc2 : ∀ q ∈ (q2 :: acc).reverse ++ rest2, q.jobId ≠ id := by
      intro q hq
      have hq2 : q ∈ acc.reverse ++ q2 :: rest2 := by simpa using hq
      apply hacc
      rcases List.mem_append.mp hq2 with h | h
      · exact List.mem_append_left _ h
      · exact List.mem_append_right _ (List.mem_cons_of_mem _ h)
    have hr := ih hacc2
    refine ⟨?_, ?_, hr.2.2⟩
    · rw [hr.1]
      show id ∈ s1.running_dirs.erase p.jobId ↔ id ∈ s.running_dirs
      rw [List.mem_erase_of_ne (Ne.symm hpne), hfr.1]
      exact Iff.rfl
    · rw [hr.2.1]
      exact hlk
  | case6 s acc p rest rc hst s0 s1 hmv s2 htr =>
    intro hacc
    have hmv2 : move_job_to_done (logAdd s .info (reapMsg p rc)) p.jobId =
        (s1, none) := hmv
    have htr2 : p.jobId ∉ s1.running_dirs := htr
    rw [doneWorkGo_keyErr s acc p rest rc s1 hst hmv2 htr2]
    have hpne : p.jobId ≠ id :=
      hacc p (List.mem_append_right _ (List.mem_cons_self _ _))
    have hfr := move_job_to_done_frame (logAdd s .info (reapMsg p rc)) p.jobId
    have hlk := move_job_to_done_lookup_ne (logAdd s .info (reapMsg p rc)) p.jobId id hpne
    rw [hmv2] at hfr hlk
    refine ⟨by rw [hfr.1]; exact Iff.rfl, hlk, ?_⟩
    intro q hq
    apply hacc
    rcases List.mem_append.mp hq with h | h
    · exact List.mem_append_left _ h
    · exact List.mem_append_right _ (List.mem_cons_of_mem _ h)

theorem not_mem_snapshot_of_tracked (s : State) (id : JobId)
    (h : id ∈ s.running_dirs) : id ∉ newWorkSnapshot s := by
  intro hm
  rw [newWorkSnapshot, List.mem_filter] at hm
  have hm2 := hm.2
  simp at hm2
  exact hm2 h

theorem mem_snapshot_of_untracked (s : State) (id : JobId)
    (hk : id ∈ s.running.map Prod.fst) (h : id ∉ s.running_dirs) :
    id ∈ newWorkSnapshot s := by
  rw [newWorkSnapshot, List.mem_filter]
  exact ⟨hk, by simpa using h⟩

theorem cycle_tracked (s : State) (id : JobId)
    (h1 : id ∈ s.running_dirs) (h2 : ∀ q ∈ s.processes, q.jobId ≠ id) :
    id ∈ (cycle s).running_dirs ∧
    (∀ q ∈ (cycle s).processes, q.jobId ≠ id) ∧
    lookupKey (cycle s).running id = lookupKey s.running id := by
  rw [cycle]
  split
  next s1 e1 hc =>
    have hf := newWorkGo_tracked id (newWorkSnapshot s) s h1 h2
    rw [check_for_new_work] at hc
    rw [hc] at hf
    exact ⟨hf.1, hf.2.2, hf.2.1⟩
  next s1 hc =>
    have hf := newWorkGo_tracked id (newWorkSnapshot s) s h1 h2
    rw [check_for_new_work] at hc
    rw [hc] at hf
    split
    next s2 e2 hd =>
      have hg := doneWorkGo_id_frame id s1 [] s1.processes (by simpa using hf.2.2)
      rw [check_for_done_work] at hd
      rw [hd] at hg
      exact ⟨hg.1.mpr hf.1, hg.2.2, hg.2.1.trans hf.2.1⟩
    next s2 hd =>
      have hg := doneWorkGo_id_frame id s1 [] s1.processes (by simpa using hf.2.2)
      rw [check_for_done_work] at hd
      rw [hd] at hg
      exact ⟨hg.1.mpr hf.1, hg.2.2, hg.2.1.trans hf.2.1⟩

theorem loop_tracked (id : JobId) (n : Nat) : ∀ s : State,
    id ∈ s.running_dirs → (∀ q ∈ s.processes, q.jobId ≠ id) →
    id ∈ (loop n s).running_dirs ∧
    (∀ q ∈ (loop n s).processes, q.jobId ≠ id) ∧
    lookupKey (loop n s).running id = lookupKey s.running id := by
  induction n with
  | zero =>
    intro s h1 h2
    exact ⟨h1, h2, rfl⟩
  | succ n ih =>
    intro s h1 h2
    have hc := cycle_tracked s id h1 h2
    have hr := ih (cycle s) hc.1 hc.2.1
    exact ⟨hr.1, hr.2.1, hr.2.2.trans hc.2.2⟩

/-! ### Claim C9 — a stale tracked identifier blocks rediscovery forever -/

/-- Claim C9: once an identifier sits in the tracked set with no process
handle — exactly the state a discovered degenerate job leaves behind, since
discovery adds the identifier before `do_work` and only the reaper, via a
handle, ever removes it — that situation persists for every later cycle:
the identifier stays tracked, never acquires a handle, is excluded from
every discovery snapshot, and a job directory bearing that identifier in
the running area (for example a newly dropped one) is never launched and
never touched. -/
theorem claim_C9 (s : State) (id : JobId) (n : Nat)
    (htr : id ∈ s.running_dirs) (hnp : ∀ q ∈ s.processes, q.jobId ≠ id) :
    id ∈ (loop n s).running_dirs ∧
    (∀ q ∈ (loop n s).processes, q.jobId ≠ id) ∧
    id ∉ newWorkSnapshot (loop n s) ∧
    lookupKey (loop n s).running id = lookupKey s.running id := by
  have h := loop_tracked id n s htr hnp
  exact ⟨h.1, h.2.1, not_mem_snapshot_of_tracked _ id h.1, h.2.2⟩

/-- Witness for C9: identifier `a` is tracked with no handle (the footprint
of a reaped degenerate job) while a fresh ready job directory named `a`
sits in the running area; three cycles leave it untouched and unlaunched. -/
theorem claim_C9_witness :
    "a" ∈ (loop 3 ⟨[("a", ⟨true, true, false, false, none⟩)],
        [("a", ⟨⟨false, false, false, false, some "-111\n"⟩, none⟩)],
        ["a"], [], []⟩).running_dirs ∧
    (∀ q ∈ (loop 3 ⟨[("a", ⟨true, true, false, false, none⟩)],
        [("a", ⟨⟨false, false, false, false, some "-111\n"⟩, none⟩)],
        ["a"], [], []⟩).processes, q.jobId ≠ "a") ∧
    "a" ∉ newWorkSnapshot (loop 3 ⟨[("a", ⟨true, true, false, false, none⟩)],
        [("a", ⟨⟨false, false, false, false, some "-111\n"⟩, none⟩)],
        ["a"], [], []⟩) ∧
    lookupKey (loop 3 ⟨[("a", ⟨true, true, false, false, none⟩)],
        [("a", ⟨⟨false, false, false, false, some "-111\n"⟩, none⟩)],
        ["a"], [], []⟩).running "a" =
      lookupKey [("a", (⟨true, true, false, false, none⟩ : JobDir))] "a" :=
  claim_C9 ⟨[("a", ⟨true, true, false, false, none⟩)],
    [("a", ⟨⟨false, false, false, false, some "-111\n"⟩, none⟩)], ["a"], [], []⟩
    "a" 3 (by decide) (by decide)

theorem cycle_frozen (s : State) (id : JobId) (d : JobDir) (hready : d.ready = false)
    (hrun : lookupKey s.running id = some d)
    (huntr : id ∉ s.running_dirs) (hnp : ∀ q ∈ s.processes, q.jobId ≠ id) :
    lookupKey (cycle s).running id = some d ∧
    id ∉ (cycle s).running_dirs ∧
    (∀ q ∈ (cycle s).processes, q.jobId ≠ id) := by
  have h0 : ∀ d2, lookupKey s.running id = some d2 → d2.ready = false := by
    intro d2 hd2
    rw [hrun] at hd2
    cases hd2
    exact hready
  rw [cycle]
  split
  next s1 e1 hc =>
    have hf := newWorkGo_frozen id (newWorkSnapshot s) s h0 huntr hnp
    rw [check_for_new_work] at hc
    rw [hc] at hf
    exact ⟨hf.1.trans hrun, hf.2.1, hf.2.2⟩
  next s1 hc =>
    have hf := newWorkGo_frozen id (newWorkSnapshot s) s h0 huntr hnp
    rw [check_for_new_work] at hc
    rw [hc] at hf
    split
    next s2 e2 hd =>
      have hg := doneWorkGo_id_frame id s1 [] s1.processes (by simpa using hf.2.2)
      rw [check_for_done_work] at hd
      rw [hd] at hg
      exact ⟨hg.2.1.trans (hf.1.trans hrun), fun hm => hf.2.1 (hg.1.mp hm), hg.2.2⟩
    next s2 hd =>
      have hg := doneWorkGo_id_frame id s1 [] s1.processes (by simpa using hf.2.2)
      rw [check_for_done_work] at hd
      rw [hd] at hg
      exact ⟨hg.2.1.trans (hf.1.trans hrun), fun hm => hf.2.1 (hg.1.mp hm), hg.2.2⟩

theorem loop_frozen (id : JobId) (d : JobDir) (hready : d.ready = false) (n : Nat) :
    ∀ s : State,
    lookupKey s.running id = some d → id ∉ s.running_dirs →
    (∀ q ∈ s.processes, q.jobId ≠ id) →
    lookupKey (loop n s).running id = some d ∧
    id ∉ (loop n s).running_dirs ∧
    (∀ q ∈ (loop n s).processes, q.jobId ≠ id) := by
  induction n with
  | zero =>
    intro s h1 h2 h3
    exact ⟨h1, h2, h3⟩
  | succ n ih =>
    intro s h1 h2 h3
    have hc := cycle_frozen s id d hready h1 h2 h3
    exact ih (cycle s) hc.1 hc.2.1 hc.2.2

/-! ### Claim C6 — a never-ready directory is left untouched and retried -/

/-- Claim C6: a job directory in the running area whose ready marker is
absent is never admitted to the tracked set and never launched, across any
number of cycles; its directory entry is never mutated; it appears in every
cycle's discovery snapshot (re-evaluated each time); and its evaluation
produces no error and no state change other than log entries. -/
theorem claim_C6 (s : State) (id : JobId) (d : JobDir) (n : Nat)
    (hrun : lookupKey s.running id = some d) (hready : d.ready = false)
    (huntr : id ∉ s.running_dirs) (hnp : ∀ q ∈ s.processes, q.jobId ≠ id) :
    lookupKey (loop n s).running id = some d ∧
    id ∉ (loop n s).running_dirs ∧
    (∀ q ∈ (loop n s).processes, q.jobId ≠ id) ∧
    id ∈ newWorkSnapshot (loop n s) ∧
    (process_new_dir (loop n s) id).2 = none ∧
    (process_new_dir (loop n s) id).1.running = (loop n s).running ∧
    (process_new_dir (loop n s) id).1.doneArea = (loop n s).doneArea ∧
    (process_new_dir (loop n s) id).1.running_dirs = (loop n s).running_dirs ∧
    (process_new_dir (loop n s) id).1.processes = (loop n s).processes := by
  have h := loop_frozen id d hready n s hrun huntr hnp
  have hev := process_new_dir_noready (loop n s) id d h.2.1 h.1 hready
  rw [hev]
  exact ⟨h.1, h.2.1, h.2.2,
    mem_snapshot_of_untracked _ id (lookupKey_isSome_mem h.1) h.2.1,
    rfl, rfl, rfl, rfl, rfl⟩

/-- Witness for C6: directory `a` exists with a job file but no ready
marker; two cycles later it is untouched, untracked, unlaunched, and still
a discovery candidate whose evaluation only logs. -/
theorem claim_C6_witness :
    lookupKey (loop 2 ⟨[("a", ⟨false, true, false, false, none⟩)], [], [], [], []⟩).running
        "a" = some ⟨false, true, false, false, none⟩ ∧
    "a" ∉ (loop 2 ⟨[("a", ⟨false, true, false, false, none⟩)], [], [], [], []⟩).running_dirs ∧
    (∀ q ∈ (loop 2 ⟨[("a", ⟨false, true, false, false, none⟩)], [], [], [], []⟩).processes,
      q.jobId ≠ "a") ∧
    "a" ∈ newWorkSnapshot
      (loop 2 ⟨[("a", ⟨false, true, false, false, none⟩)], [], [], [], []⟩) ∧
    (process_new_dir (loop 2 ⟨[("a", ⟨false, true, false, false, none⟩)], [], [], [], []⟩)
        "a").2 = none ∧
    (process_new_dir (loop 2 ⟨[("a", ⟨false, true, false, false, none⟩)], [], [], [], []⟩)
        "a").1.running =
      (loop 2 ⟨[("a", ⟨false, true, false, false, none⟩)], [], [], [], []⟩).running ∧
    (process_new_dir (loop 2 ⟨[("a", ⟨false, true, false, false, none⟩)], [], [], [], []⟩)
        "a").1.doneArea =
      (loop 2 ⟨[("a", ⟨false, true, false, false, none⟩)], [], [], [], []⟩).doneArea ∧
    (process_new_dir (loop 2 ⟨[("a", ⟨false, true, false, false, none⟩)], [], [], [], []⟩)
        "a").1.running_dirs =
      (loop 2 ⟨[("a", ⟨false, true, false, false, none⟩)], [], [], [], []⟩).running_dirs ∧
    (process_new_dir (loop 2 ⟨[("a", ⟨false, true, false, false, none⟩)], [], [], [], []⟩)
        "a").1.processes =
      (loop 2 ⟨[("a", ⟨false, true, false, false, none⟩)], [], [], [], []⟩).processes :=
  claim_C6 ⟨[("a", ⟨false, true, false, false, none⟩)], [], [], [], []⟩ "a"
    ⟨false, true, false, false, none⟩ 2 (by decide) (by decide) (by decide) (by decide)

/-! ### Further association-list lemmas (for the stability claim) -/

theorem lookupKey_exists_of_mem_keys {α : Type} {l : List (JobId × α)} {id : JobId}
    (h : id ∈ l.map Prod.fst) : ∃ v, lookupKey l id = some v := by
  cases hl : lookupKey l id with
  | none => exact absurd ((lookupKey_eq_none l id).mp hl) (by simp [h])
  | some v => exact ⟨v, rfl⟩

theorem lookupKey_of_mem_nodup {α : Type} {l : List (JobId × α)} {id : JobId} {v : α}
    (hnd : (l.map Prod.fst).Nodup) (h : (id, v) ∈ l) : lookupKey l id = some v := by
  induction l with
  | nil => simp at h
  | cons kv rest ih =>
    obtain ⟨k, w⟩ := kv
    rw [List.map_cons, List.nodup_cons] at hnd
    rcases List.mem_cons.mp h with h1 | h1
    · rw [Prod.mk.injEq] at h1
      rw [lookupKey, if_pos h1.1.symm, h1.2]
    · by_cases hk : k = id
      · subst hk
        exact absurd (List.mem_map_of_mem Prod.fst h1) hnd.1
      · rw [lookupKey, if_neg hk]
        exact ih hnd.2 h1

theorem mem_eraseKey_ne {α : Type} {l : List (JobId × α)} {j : JobId}
    (hnd : (l.map Prod.fst).Nodup) {kv : JobId × α} (h : kv ∈ eraseKey l j) :
    kv ∈ l ∧ kv.1 ≠ j := by
  induction l with
  | nil => simp [eraseKey] at h
  | cons a rest ih =>
    obtain ⟨k, v⟩ := a
    rw [List.map_cons, List.nodup_cons] at hnd
    by_cases hk : k = j
    · rw [eraseKey, if_pos hk] at h
      refine ⟨List.mem_cons_of_mem _ h, ?_⟩
      intro he
      apply hnd.1
      have hmem := List.mem_map_of_mem Prod.fst h
      rw [he, ← hk] at hmem
      exact hmem
    · rw [eraseKey, if_neg hk] at h
      rcases List.mem_cons.mp h with h1 | h1
      · subst h1
        exact ⟨List.mem_cons_self _ _, hk⟩
      · have := ih hnd.2 h1
        exact ⟨List.mem_cons_of_mem _ this.1, this.2⟩

theorem mem_setKey_cases {α : Type} {l : List (JobId × α)} {j : JobId} {w : α}
    {kv : JobId × α} (h : kv ∈ setKey l j w) : kv ∈ l ∨ kv.1 = j := by
  induction l with
  | nil => simp [setKey] at h
  | cons a rest ih =>
    obtain ⟨k, v⟩ := a
    by_cases hk : k = j
    · rw [setKey, if_pos hk] at h
      rcases List.mem_cons.mp h with h1 | h1
      · subst h1
        exact Or.inr hk
      · exact Or.inl (List.mem_cons_of_mem _ h1)
    · rw [setKey, if_neg hk] at h
      rcases List.mem_cons.mp h with h1 | h1
      · subst h1
        exact Or.inl (List.mem_cons_self _ _)
      · rcases ih h1 with h2 | h2
        · exact Or.inl (List.mem_cons_of_mem _ h2)
        · exact Or.inr h2

theorem move_job_to_done_ok_running (s : State) (j : JobId) (s1 : State)
    (h : move_job_to_done s j = (s1, none)) : s1.running = eraseKey s.running j := by
  rw [move_job_to_done] at h
  split at h
  · simp at h
  · dsimp only at h
    split at h
    · rw [Prod.mk.injEq] at h
      rw [← h.1]
      dsimp only
      rw [eraseKey_setKey]
    · split at h
      · rw [Prod.mk.injEq] at h
        rw [← h.1]
        dsimp only
        rw [eraseKey_setKey]
      · simp at h

theorem degenerateJob_ok_running (s : State) (j : JobId) (s1 : State)
    (h : degenerateJob s j = (s1, none)) : s1.running = eraseKey s.running j := by
  rcases hmv : move_job_to_done
      (logAdd s .warning ("No job file found in " ++ j ++ ". Moving to done.")) j
    with ⟨s2, e⟩
  cases e with
  | some e1 =>
    rw [degenerateJob_err s j s2 e1 hmv] at h
    simp at h
  | none =>
    rw [degenerateJob_ok s j s2 hmv] at h
    rw [Prod.mk.injEq] at h
    rw [← h.1]
    exact move_job_to_done_ok_running
      (logAdd s .warning ("No job file found in " ++ j ++ ". Moving to done.")) j s2 hmv

/-! ### Quiescent passes (claim C8) -/

theorem newWorkGo_step_ok (s : State) (id : JobId) (rest : List JobId) (s1 : State)
    (hp : process_new_dir s id = (s1, none)) :
    newWorkGo s (id :: rest) = newWorkGo s1 rest := by
  rw [newWorkGo, hp]

theorem newWorkGo_step_err (s : State) (id : JobId) (rest : List JobId) (s1 : State)
    (e : Err) (hp : process_new_dir s id = (s1, some e)) :
    newWorkGo s (id :: rest) = (s1, some e) := by
  rw [newWorkGo, hp]

/-- The log entries a quiescent discovery pass emits for one candidate
(discovery notice, optional stale-marker warning, not-starting notice). -/
def candidateLog (running : List (JobId × JobDir)) (id : JobId) : List LogEntry :=
  match lookupKey running id with
  | some d => discoveryLogs id d ++
      [⟨.info, "Not starting work, no .ready file found in " ++ id⟩]
  | none => []

/-- All entries one quiescent pass appends to the log. -/
def passLog (s : State) : List LogEntry :=
  (newWorkSnapshot s).flatMap (candidateLog s.running)

theorem newWorkGo_quiescent (l : List JobId) : ∀ s : State,
    (∀ id ∈ l, id ∉ s.running_dirs ∧
      ∃ d, lookupKey s.running id = some d ∧ d.ready = false) →
    newWorkGo s l =
      ({ s with log := s.log ++ l.flatMap (candidateLog s.running) }, none) := by
  induction l with
  | nil =>
    intro s h
    simp [newWorkGo]
  | cons id rest ih =>
    intro s h
    obtain ⟨huntr, d, hlk, hrf⟩ := h id (List.mem_cons_self _ _)
    rw [newWorkGo_step_ok s id rest
        { s with log := s.log ++ discoveryLogs id d ++
            [⟨.info, "Not starting work, no .ready file found in " ++ id⟩] }
        (process_new_dir_noready s id d huntr hlk hrf),
      ih { s with log := s.log ++ discoveryLogs id d ++
            [⟨.info, "Not starting work, no .ready file found in " ++ id⟩] }
        (fun j hj => h j (List.mem_cons_of_mem _ hj))]
    simp [candidateLog, hlk]

theorem doneWorkGo_allNone (l : List Proc) : ∀ (s : State) (acc : List Proc),
    (∀ q ∈ l, q.status = none) →
    doneWorkGo s acc l = ({ s with processes := acc.reverse ++ l }, none) := by
  induction l with
  | nil =>
    intro s acc h
    rw [doneWorkGo_nil]
    simp
  | cons p rest ih =>
    intro s acc h
    rw [doneWorkGo_skip s acc p rest (h p (List.mem_cons_self _ _)),
      ih s (p :: acc) (fun q hq => h q (List.mem_cons_of_mem _ hq))]
    simp

theorem check_for_done_work_allNone (s : State)
    (h : ∀ q ∈ s.processes, q.status = none) :
    check_for_done_work s = (s, none) := by
  rw [check_for_done_work, doneWorkGo_allNone s.processes s [] h]
  simp

/-- A quiescent state: every untracked running-area directory lacks its
ready marker (so discovery starts nothing), and no child has exited (so
the reaper reaps nothing).  This is the regime the stability claim is
about: a pass makes no state transition here. -/
def Quiescent (s : State) : Prop :=
  (∀ kv ∈ s.running, kv.1 ∉ s.running_dirs → kv.2.ready = false) ∧
  ∀ q ∈ s.processes, q.status = none

instance (s : State) : Decidable (Quiescent s) := by
  unfold Quiescent
  infer_instance

theorem cycle_quiescent (s : State) (hq : Quiescent s) :
    cycle s = { s with log := s.log ++ passLog s } := by
  have hd : check_for_new_work s = ({ s with log := s.log ++ passLog s }, none) := by
    rw [check_for_new_work, newWorkGo_quiescent (newWorkSnapshot s) s ?hyp]
    · rfl
    case hyp =>
      intro id hid
      rw [newWorkSnapshot, List.mem_filter] at hid
      have huntr : id ∉ s.running_dirs := by simpa using hid.2
      obtain ⟨d, hlk⟩ := lookupKey_exists_of_mem_keys hid.1
      exact ⟨huntr, d, hlk, hq.1 (id, d) (lookupKey_mem_pair hlk) huntr⟩
  rw [cycle, hd]
  dsimp only
  rw [check_for_done_work_allNone { s with log := s.log ++ passLog s }
    (fun q hq2 => hq.2 q hq2)]

theorem loop_quiescent (n : Nat) : ∀ s : State, Quiescent s →
    loop n s = { s with log := s.log ++ (List.replicate n (passLog s)).flatten } := by
  induction n with
  | zero =>
    intro s hq
    show s = { s with log := s.log ++ (List.replicate 0 (passLog s)).flatten }
    simp
  | succ n ih =>
    intro s hq
    rw [show loop (n + 1) s = loop n (cycle s) from rfl, cycle_quiescent s hq,
      ih { s with log := s.log ++ passLog s } hq]
    show ({ s with log := (s.log ++ passLog s) ++
        (List.replicate n (passLog s)).flatten } : State) =
      { s with log := s.log ++ (List.replicate (n + 1) (passLog s)).flatten }
    simp [List.replicate_succ]

/-- After a successful discovery pass in which every untracked directory
was a candidate, every still-untracked directory lacks its ready marker,
keys stay duplicate-free, and (when no child had exited) every process is
still unexited: the state is quiescent. -/
theorem newWorkGo_post (l : List JobId) : ∀ s t : State,
    (s.running.map Prod.fst).Nodup →
    newWorkGo s l = (t, none) →
    (∀ kv ∈ s.running, kv.1 ∉ s.running_dirs → kv.1 ∈ l ∨ kv.2.ready = false) →
    (∀ q ∈ s.processes, q.status = none) →
    (t.running.map Prod.fst).Nodup ∧
    (∀ kv ∈ t.running, kv.1 ∉ t.running_dirs → kv.2.ready = false) ∧
    (∀ q ∈ t.processes, q.status = none) := by
  induction l with
  | nil =>
    intro s t hnd hgo hcov hst
    rw [newWorkGo, Prod.mk.injEq] at hgo
    rw [← hgo.1]
    refine ⟨hnd, fun kv hm hu => ?_, hst⟩
    rcases hcov kv hm hu with h | h
    · simp at h
    · exact h
  | cons j rest ih =>
    intro s t hnd hgo hcov hst
    rcases process_new_dir_shape s j with ⟨hjtr, hsh⟩ | ⟨hwhy, lg, hsh⟩ |
      ⟨hjun, d, hlk, hrd, lg, hsh⟩
    · rw [newWorkGo_step_ok s j rest s hsh] at hgo
      refine ih s t hnd hgo (fun kv hm hu => ?_) hst
      rcases hcov kv hm hu with h | h
      · rcases List.mem_cons.mp h with h1 | h1
        · exact absurd (h1 ▸ hjtr) hu
        · exact Or.inl h1
      · exact Or.inr h
    · rw [newWorkGo_step_ok s j rest _ hsh] at hgo
      refine ih ⟨s.running, s.doneArea, s.running_dirs, s.processes, s.log ++ lg⟩ t
        hnd ?hgoB (fun kv hm hu => ?_) hst
      case hgoB => exact hgo
      rcases hcov kv hm hu with h | h
      · rcases List.mem_cons.mp h with h1 | h1
        · rcases hwhy with hw | ⟨d, hld, hrd⟩
          · obtain ⟨v, hv⟩ := lookupKey_exists_of_mem_keys
              (h1 ▸ List.mem_map_of_mem Prod.fst hm)
            rw [hv] at hw
            simp at hw
          · have hthis : lookupKey s.running kv.1 = some kv.2 :=
              lookupKey_of_mem_nodup hnd (by rw [← Prod.mk.eta (p := kv)] at hm; exact hm)
            rw [h1, hld] at hthis
            injection hthis with hdkv
            exact Or.inr (hdkv ▸ hrd)
        · exact Or.inl h1
      · exact Or.inr h
    · have hjlk : lookupKey
          ((⟨s.running, s.doneArea, s.running_dirs ++ [j], s.processes,
            s.log ++ lg⟩ : State)).running j = some d := hlk
      by_cases hj : d.job = true
      · rw [newWorkGo_step_ok s j rest _
          (hsh.trans (do_work_job _ j d hjlk hj))] at hgo
        refine ih ⟨setKey s.running j { d with jobOut := true, jobErr := true },
            s.doneArea, s.running_dirs ++ [j], s.processes ++ [⟨j, none⟩],
            (s.log ++ lg) ++ [⟨.info, "Starting work in " ++ j⟩]⟩ t
          (by rw [keys_setKey]; exact hnd) ?hgoC (fun kv hm hu => ?_) ?_
        case hgoC => exact hgo
        · have hkne : kv.1 ≠ j := by
            intro he
            exact hu (List.mem_append_right _ (by rw [he]; simp))
          have hm2 : kv ∈ s.running := by
            rcases mem_setKey_cases hm with h2 | h2
            · exact h2
            · exact absurd h2 hkne
          have hu2 : kv.1 ∉ s.running_dirs :=
            fun h2 => hu (List.mem_append_left _ h2)
          rcases hcov kv hm2 hu2 with h | h
          · rcases List.mem_cons.mp h with h1 | h1
            · exact absurd h1 hkne
            · exact Or.inl h1
          · exact Or.inr h
        · intro q hq
          rcases List.mem_append.mp hq with h2 | h2
          · exact hst q h2
          · simp at h2
            rw [h2]
      · have hjf : d.job = false := by
          cases hb : d.job
          · rfl
          · exact absurd hb hj
        rcases hdg : degenerateJob
            (⟨s.running, s.doneArea, s.running_dirs ++ [j], s.processes,
              s.log ++ lg⟩ : State) j with ⟨s1, e⟩
        cases e with
        | some e1 =>
          rw [newWorkGo_step_err s j rest s1 e1
            (hsh.trans ((do_work_nojob _ j d hjlk hjf).trans hdg))] at hgo
          simp at hgo
        | none =>
          have hrun1 : s1.running = eraseKey s.running j :=
            degenerateJob_ok_running
              ⟨s.running, s.doneArea, s.running_dirs ++ [j], s.processes, s.log ++ lg⟩
              j s1 hdg
          have hfr := degenerateJob_frame
            (⟨s.running, s.doneArea, s.running_dirs ++ [j], s.processes,
              s.log ++ lg⟩ : State) j
          rw [hdg] at hfr
          rw [newWorkGo_step_ok s j rest s1
            (hsh.trans ((do_work_nojob _ j d hjlk hjf).trans hdg))] at hgo
          refine ih s1 t ?_ hgo (fun kv hm hu => ?_) ?_
          · rw [hrun1]
            exact (keys_eraseKey_sublist s.running j).nodup hnd
          · rw [hrun1] at hm
            obtain ⟨hm2, hkne⟩ := mem_eraseKey_ne hnd hm
            have hu2 : kv.1 ∉ s.running_dirs := by
              intro h2
              apply hu
              rw [hfr.1]
              exact List.mem_append_left _ h2
            rcases hcov kv hm2 hu2 with h | h
            · rcases List.mem_cons.mp h with h1 | h1
              · exact absurd h1 hkne
              · exact Or.inl h1
            · exact Or.inr h
          · intro q hq
            rw [hfr.2.1] at hq
            exact hst q hq

theorem cycle_post (s : State) (hnd : (s.running.map Prod.fst).Nodup)
    (hnone : ∀ q ∈ s.processes, q.status = none)
    (s1 : State) (hok : check_for_new_work s = (s1, none)) :
    cycle s = s1 ∧ Quiescent s1 := by
  rw [check_for_new_work] at hok
  have hpost := newWorkGo_post (newWorkSnapshot s) s s1 hnd hok
    (fun kv hm hu =>
      Or.inl (mem_snapshot_of_untracked s kv.1 (List.mem_map_of_mem Prod.fst hm) hu))
    hnone
  refine ⟨?_, hpost.2.1, hpost.2.2⟩
  rw [cycle, check_for_new_work, hok]
  dsimp only
  rw [check_for_done_work_allNone s1 hpost.2.2]

/-! ### Claim C8 — stability of repeated passes -/

/-- Claim C8: starting from any state whose running-area listing has
distinct names, in which no child process has exited, and whose discovery
pass completes without an exception, everything after the first
discovery-and-reap pass is stable: every further pass leaves the running
area, done area, Active Job Set, and process collection exactly as the
first pass left them, and appends to the log exactly the same entry list
(`passLog`) each pass — no transitions and no log entries beyond what a
single pass produces. -/
theorem claim_C8 (s : State) (n : Nat)
    (hnd : (s.running.map Prod.fst).Nodup)
    (hnone : ∀ q ∈ s.processes, q.status = none)
    (s1 : State) (hok : check_for_new_work s = (s1, none)) :
    ((loop (n + 1) s).running = (cycle s).running ∧
     (loop (n + 1) s).doneArea = (cycle s).doneArea ∧
     (loop (n + 1) s).running_dirs = (cycle s).running_dirs ∧
     (loop (n + 1) s).processes = (cycle s).processes) ∧
    (loop (n + 1) s).log =
      (cycle s).log ++ (List.replicate n (passLog (cycle s))).flatten := by
  obtain ⟨hcy, hq⟩ := cycle_post s hnd hnone s1 hok
  have h1 : loop (n + 1) s = loop n (cycle s) := rfl
  rw [h1, hcy, loop_quiescent n s1 hq]
  exact ⟨⟨rfl, rfl, rfl, rfl⟩, rfl⟩

/-- Witness for C8: one never-ready directory and one still-running child;
three passes change nothing but repeat the same two log lines. -/
theorem claim_C8_witness :
    ((loop 3 ⟨[("a", ⟨false, true, false, false, none⟩)], [], ["b"],
        [⟨"b", none⟩], []⟩).running =
      (cycle ⟨[("a", ⟨false, true, false, false, none⟩)], [], ["b"],
        [⟨"b", none⟩], []⟩).running ∧
     (loop 3 ⟨[("a", ⟨false, true, false, false, none⟩)], [], ["b"],
        [⟨"b", none⟩], []⟩).doneArea =
      (cycle ⟨[("a", ⟨false, true, false, false, none⟩)], [], ["b"],
        [⟨"b", none⟩], []⟩).doneArea ∧
     (loop 3 ⟨[("a", ⟨false, true, false, false, none⟩)], [], ["b"],
        [⟨"b", none⟩], []⟩).running_dirs =
      (cycle ⟨[("a", ⟨false, true, false, false, none⟩)], [], ["b"],
        [⟨"b", none⟩], []⟩).running_dirs ∧
     (loop 3 ⟨[("a", ⟨false, true, false, false, none⟩)], [], ["b"],
        [⟨"b", none⟩], []⟩).processes =
      (cycle ⟨[("a", ⟨false, true, false, false, none⟩)], [], ["b"],
        [⟨"b", none⟩], []⟩).processes) ∧
    (loop 3 ⟨[("a", ⟨false, true, false, false, none⟩)], [], ["b"],
        [⟨"b", none⟩], []⟩).log =
      (cycle ⟨[("a", ⟨false, true, false, false, none⟩)], [], ["b"],
        [⟨"b", none⟩], []⟩).log ++
        (List.replicate 2 (passLog (cycle ⟨[("a", ⟨false, true, false, false, none⟩)],
          [], ["b"], [⟨"b", none⟩], []⟩))).flatten :=
  claim_C8 ⟨[("a", ⟨false, true, false, false, none⟩)], [], ["b"], [⟨"b", none⟩], []⟩ 2
    (by decide) (by decide)
    ⟨[("a", ⟨false, true, false, false, none⟩)], [], ["b"], [⟨"b", none⟩],
     [⟨.info, "New directory discovered a"⟩,
      ⟨.info, "Not starting work, no .ready file found in a"⟩]⟩
    (by decide)

/-! ### The relocation sequence (claim C4) -/

/-- Full evaluation of `move_job_to_done` when the destination does not yet
exist in the done area: the ready marker is deleted, then the whole
directory is renamed into `done/` in one step. -/
theorem move_job_to_done_fresh (s : State) (id : JobId) (d : JobDir)
    (hrun : lookupKey s.running id = some d)
    (hfresh : lookupKey s.doneArea id = none) :
    move_job_to_done s id =
      ({ s with running := eraseKey s.running id,
                doneArea := s.doneArea ++ [(id, ⟨{ d with ready := false }, none⟩)] },
        none) := by
  rw [move_job_to_done, hrun]
  dsimp only
  rw [hfresh, eraseKey_setKey]

theorem write_status_file_lookup_ne (da : List (JobId × DoneEntry)) (j id : JobId)
    (rc : Int) (hne : j ≠ id) :
    lookupKey (write_status_file da j rc) id = lookupKey da id := by
  rw [write_status_file]
  cases h : lookupKey da j with
  | none => rfl
  | some e => exact lookupKey_setKey_ne da _ (Ne.symm hne)

theorem move_job_to_done_doneArea_ne (s : State) (j id : JobId) (hne : j ≠ id) :
    lookupKey (move_job_to_done s j).1.doneArea id = lookupKey s.doneArea id := by
  rw [move_job_to_done]
  split
  · rfl
  · dsimp only
    split
    next heq =>
      dsimp only
      rw [lookupKey_append]
      rw [show lookupKey s.doneArea id = lookupKey s.doneArea id from rfl]
      cases h2 : lookupKey s.doneArea id with
      | none => simp [lookupKey, hne]
      | some e => rfl
    · split
      · dsimp only
        exact lookupKey_setKey_ne s.doneArea _ (Ne.symm hne)
      · rfl

theorem doneWorkGo_doneArea_frame (id : JobId) (s : State) (acc l : List Proc) :
    (∀ q ∈ l, q.jobId ≠ id) →
    lookupKey (doneWorkGo s acc l).1.doneArea id = lookupKey s.doneArea id := by
  induction s, acc, l using doneWorkGo.induct with
  | case1 s acc =>
    intro hacc
    rw [doneWorkGo_nil]
  | case2 s acc p rest hst ih =>
    intro hacc
    rw [doneWorkGo_skip s acc p rest hst]
    exact ih (fun q hq => hacc q (List.mem_cons_of_mem _ hq))
  | case3 s acc p rest rc hst s0 s1 e hmv =>
    intro hacc
    have hmv2 : move_job_to_done (logAdd s .info (reapMsg p rc)) p.jobId =
        (s1, some e) := hmv
    rw [doneWorkGo_moveErr s acc p rest rc s1 e hst hmv2]
    have hda := move_job_to_done_doneArea_ne (logAdd s .info (reapMsg p rc)) p.jobId id
      (hacc p (List.mem_cons_self _ _))
    rw [hmv2] at hda
    exact hda
  | case4 s acc p rc hst s0 s1 hmv s2 htr =>
    intro hacc
    have hmv2 : move_job_to_done (logAdd s .info (reapMsg p rc)) p.jobId =
        (s1, none) := hmv
    have htr2 : p.jobId ∈ s1.running_dirs := htr
    rw [doneWorkGo_reap_last s acc p rc s1 hst hmv2 htr2]
    have hda := move_job_to_done_doneArea_ne (logAdd s .info (reapMsg p rc)) p.jobId id
      (hacc p (List.mem_cons_self _ _))
    rw [hmv2] at hda
    show lookupKey (write_status_file s1.doneArea p.jobId rc) id = lookupKey s.doneArea id
    rw [write_status_file_lookup_ne s1.doneArea p.jobId id rc
      (hacc p (List.mem_cons_self _ _))]
    exact hda
  | case5 s acc p rc hst s0 s1 hmv s2 htr s3 q2 rest2 ih =>
    intro hacc
    have hmv2 : move_job_to_done (logAdd s .info (reapMsg p rc)) p.jobId =
        (s1, none) := hmv
    have htr2 : p.jobId ∈ s1.running_dirs := htr
    rw [doneWorkGo_reap_skip s acc p q2 rest2 rc s1 hst hmv2 htr2]
    have hda := move_job_to_done_doneArea_ne (logAdd s .info (reapMsg p rc)) p.jobId id
      (hacc p (List.mem_cons_self _ _))
    rw [hmv2] at hda
    have hr := ih (fun q hq => hacc q (List.mem_cons_of_mem _ (List.mem_cons_of_mem _ hq)))
    rw [hr]
    show lookupKey (write_status_file s1.doneArea p.jobId rc) id = lookupKey s.doneArea id
    rw [write_status_file_lookup_ne s1.doneArea p.jobId id rc
      (hacc p (List.mem_cons_self _ _))]
    exact hda
  | case6 s acc p rest rc hst s0 s1 hmv s2 htr =>
    intro hacc
    have hmv2 : move_job_to_done (logAdd s .info (reapMsg p rc)) p.jobId =
        (s1, none) := hmv
    have htr2 : p.jobId ∉ s1.running_dirs := htr
    rw [doneWorkGo_keyErr s acc p rest rc s1 hst hmv2 htr2]
    have hda := move_job_to_done_doneArea_ne (logAdd s .info (reapMsg p rc)) p.jobId id
      (hacc p (List.mem_cons_self _ _))
    rw [hmv2] at hda
    show lookupKey (write_status_file s1.doneArea p.jobId rc) id = lookupKey s.doneArea id
    rw [write_status_file_lookup_ne s1.doneArea p.jobId id rc
      (hacc p (List.mem_cons_self _ _))]
    exact hda

/-- Claim C4: the reaper's relocation sequence for a completed job is:
delete the ready marker if present, then one atomic move of the directory
into `done/`, then write the done marker.  Consequently the done marker
never coexists with the job directory under `running/`: after the move and
before the write the directory is in `done/` (ready marker gone) with no
marker yet, and after the write the marker is present with the directory
still out of `running/`.  At the end of the reaper pass that processes the
handle (the granularity at which the in-memory set is observable), the
marker is visible while the identifier is no longer tracked and the handle
is gone.  The hypotheses put the handle at the head of the process list —
the handle position the pass is guaranteed to process. -/
theorem claim_C4 (s : State) (id : JobId) (d : JobDir) (rc : Int) (rest : List Proc)
    (hrun : lookupKey s.running id = some d)
    (hstale : d.doneFile = none)
    (hfresh : lookupKey s.doneArea id = none)
    (htr : id ∈ s.running_dirs)
    (hnodup : (s.running.map Prod.fst).Nodup)
    (hrd : s.running_dirs.Nodup)
    (hprocs : s.processes = ⟨id, some rc⟩ :: rest)
    (hpn : ∀ q ∈ rest, q.jobId ≠ id) :
    move_job_to_done s id =
      ({ s with running := eraseKey s.running id,
                doneArea := s.doneArea ++ [(id, ⟨{ d with ready := false }, none⟩)] },
        none) ∧
    lookupKey (eraseKey s.running id) id = none ∧
    lookupKey (s.doneArea ++ [(id, ⟨{ d with ready := false }, none⟩)]) id =
      some ⟨{ d with ready := false }, none⟩ ∧
    ({ d with ready := false } : JobDir).doneFile = none ∧
    write_status_file (s.doneArea ++ [(id, ⟨{ d with ready := false }, none⟩)]) id rc =
      s.doneArea ++
        [(id, ⟨{ d with ready := false, doneFile := some (statusText rc) }, none⟩)] ∧
    lookupKey (check_for_done_work s).1.doneArea id =
      some ⟨{ d with ready := false, doneFile := some (statusText rc) }, none⟩ ∧
    lookupKey (check_for_done_work s).1.running id = none ∧
    id ∉ (check_for_done_work s).1.running_dirs ∧
    ∀ q ∈ (check_for_done_work s).1.processes, q.jobId ≠ id := by
  have hmove := move_job_to_done_fresh s id d hrun hfresh
  have herase : lookupKey (eraseKey s.running id) id = none :=
    lookupKey_eraseKey_self hnodup
  have happ : lookupKey (s.doneArea ++ [(id, (⟨{ d with ready := false }, none⟩ :
      DoneEntry))]) id = some ⟨{ d with ready := false }, none⟩ := by
    rw [lookupKey_append, hfresh]
    simp [lookupKey]
  have hW := write_status_file_append_fresh s.doneArea id { d with ready := false }
    none rc hfresh
  have hfinal : lookupKey (s.doneArea ++
      [(id, (⟨{ d with ready := false, doneFile := some (statusText rc) }, none⟩ :
        DoneEntry))]) id =
      some ⟨{ d with ready := false, doneFile := some (statusText rc) }, none⟩ := by
    rw [lookupKey_append, hfresh]
    simp [lookupKey]
  have hmv : move_job_to_done
      (logAdd s .info (reapMsg ⟨id, some rc⟩ rc)) id =
      (⟨eraseKey s.running id,
        s.doneArea ++ [(id, ⟨{ d with ready := false }, none⟩)],
        s.running_dirs, s.processes,
        (logAdd s .info (reapMsg ⟨id, some rc⟩ rc)).log⟩, none) :=
    move_job_to_done_fresh (logAdd s .info (reapMsg ⟨id, some rc⟩ rc)) id d hrun hfresh
  refine ⟨hmove, herase, happ, hstale, hW, ?_⟩
  rw [check_for_done_work, hprocs]
  cases rest with
  | nil =>
    rw [doneWorkGo_reap_last s [] ⟨id, some rc⟩ rc _ rfl hmv htr]
    refine ⟨?_, herase, ?_, ?_⟩
    · show lookupKey (write_status_file
        (s.doneArea ++ [(id, ⟨{ d with ready := false }, none⟩)]) id rc) id = _
      rw [hW]
      exact hfinal
    · exact hrd.not_mem_erase
    · intro q hq
      simp at hq
  | cons q2 rest2 =>
    rw [doneWorkGo_reap_skip s [] ⟨id, some rc⟩ q2 rest2 rc _ rfl hmv htr]
    have hacc2 : ∀ q ∈ [q2].reverse ++ rest2, q.jobId ≠ id := by
      intro q hq
      apply hpn
      rcases List.mem_append.mp hq with h | h
      · simp at h
        rw [h]
        exact List.mem_cons_self _ _
      · exact List.mem_cons_of_mem _ h
    have hid := doneWorkGo_id_frame id
      ⟨eraseKey s.running id,
       write_status_file (s.doneArea ++ [(id, ⟨{ d with ready := false }, none⟩)]) id rc,
       s.running_dirs.erase id, s.processes,
       (logAdd s .info (reapMsg ⟨id, some rc⟩ rc)).log⟩ [q2] rest2 hacc2
    have hda := doneWorkGo_doneArea_frame id
      ⟨eraseKey s.running id,
       write_status_file (s.doneArea ++ [(id, ⟨{ d with ready := false }, none⟩)]) id rc,
       s.running_dirs.erase id, s.processes,
       (logAdd s .info (reapMsg ⟨id, some rc⟩ rc)).log⟩ [q2] rest2
      (fun q hq => hpn q (List.mem_cons_of_mem _ hq))
    have hstep : lookupKey (write_status_file
        (s.doneArea ++ [(id, ⟨{ d with ready := false }, none⟩)]) id rc) id =
        some ⟨{ d with ready := false, doneFile := some (statusText rc) }, none⟩ := by
      rw [hW]
      exact hfinal
    refine ⟨?_, ?_, ?_, hid.2.2⟩
    · exact hda.trans hstep
    · exact (hid.2.1).trans herase
    · intro hm
      exact hrd.not_mem_erase (hid.1.mp hm)

/-- Witness for C4 at a concrete completed job `a` with exit code 5. -/
theorem claim_C4_witness :
    move_job_to_done ⟨[("a", ⟨true, true, true, true, none⟩)], [], ["a"],
        [⟨"a", some 5⟩], []⟩ "a" =
      ({ (⟨[("a", ⟨true, true, true, true, none⟩)], [], ["a"],
          [⟨"a", some 5⟩], []⟩ : State) with
          running := eraseKey [("a", ⟨true, true, true, true, none⟩)] "a",
          doneArea := [] ++ [("a", ⟨⟨false, true, true, true, none⟩, none⟩)] }, none) ∧
    lookupKey (eraseKey [("a", (⟨true, true, true, true, none⟩ : JobDir))] "a") "a" =
      none ∧
    lookupKey ([] ++ [("a", (⟨⟨false, true, true, true, none⟩, none⟩ : DoneEntry))]) "a" =
      some ⟨⟨false, true, true, true, none⟩, none⟩ ∧
    (⟨false, true, true, true, none⟩ : JobDir).doneFile = none ∧
    write_status_file ([] ++ [("a", ⟨⟨false, true, true, true, none⟩, none⟩)]) "a" 5 =
      [] ++ [("a", ⟨⟨false, true, true, true, some (statusText 5)⟩, none⟩)] ∧
    lookupKey (check_for_done_work ⟨[("a", ⟨true, true, true, true, none⟩)], [], ["a"],
        [⟨"a", some 5⟩], []⟩).1.doneArea "a" =
      some ⟨⟨false, true, true, true, some (statusText 5)⟩, none⟩ ∧
    lookupKey (check_for_done_work ⟨[("a", ⟨true, true, true, true, none⟩)], [], ["a"],
        [⟨"a", some 5⟩], []⟩).1.running "a" = none ∧
    "a" ∉ (check_for_done_work ⟨[("a", ⟨true, true, true, true, none⟩)], [], ["a"],
        [⟨"a", some 5⟩], []⟩).1.running_dirs ∧
    ∀ q ∈ (check_for_done_work ⟨[("a", ⟨true, true, true, true, none⟩)], [], ["a"],
        [⟨"a", some 5⟩], []⟩).1.processes, q.jobId ≠ "a" :=
  claim_C4 ⟨[("a", ⟨true, true, true, true, none⟩)], [], ["a"], [⟨"a", some 5⟩], []⟩
    "a" ⟨true, true, true, true, none⟩ 5 []
    (by decide) (by decide) (by decide) (by decide) (by decide) (by decide) (by decide)
    (by intro q hq; simp at hq)

/-! ### The reaper-pass specification (claim C1) -/

/-- The hypotheses under which the reaper pass runs cleanly: duplicate-free
keys and tracked set, duplicate-free handle identifiers, every handle
tracked, every handle's directory still in the running area, no handle's
identifier already in the done area, and every running-area directory
tracked (so discovery is a no-op). -/
def ReapH (s : State) (ps : List Proc) : Prop :=
  (s.running.map Prod.fst).Nodup ∧
  s.running_dirs.Nodup ∧
  (ps.map Proc.jobId).Nodup ∧
  (∀ q ∈ ps, q.jobId ∈ s.running_dirs) ∧
  (∀ q ∈ ps, q.jobId ∈ s.running.map Prod.fst) ∧
  (∀ q ∈ ps, lookupKey s.doneArea q.jobId = none) ∧
  (∀ id ∈ s.running.map Prod.fst, id ∈ s.running_dirs)

instance (s : State) (ps : List Proc) : Decidable (ReapH s ps) := by
  unfold ReapH
  infer_instance

/-- A job has been fully reaped: its done-area entry carries the exit code
as decimal text plus newline and no ready marker, its directory has left
the running area, its identifier is untracked, and no handle bears it. -/
def Handled (t : State) (id : JobId) (rc : Int) : Prop :=
  (∃ en : DoneEntry, lookupKey t.doneArea id = some en ∧
    en.top.doneFile = some (statusText rc) ∧ en.top.ready = false) ∧
  lookupKey t.running id = none ∧
  id ∉ t.running_dirs ∧
  ∀ q ∈ t.processes, q.jobId ≠ id

/-- When every running-area directory is already tracked, the discovery
snapshot is empty and the phase does nothing. -/
theorem discovery_noop (s : State)
    (h : ∀ id ∈ s.running.map Prod.fst, id ∈ s.running_dirs) :
    check_for_new_work s = (s, none) := by
  have hsnap : newWorkSnapshot s = [] := by
    rw [newWorkSnapshot, List.filter_eq_nil_iff]
    intro id hid
    simp [h id hid]
  rw [check_for_new_work, hsnap, newWorkGo]

theorem shift_eq (x : Proc) (acc l : List Proc) :
    (x :: acc).reverse ++ l = acc.reverse ++ x :: l := by
  simp

/-- One reaper pass under `ReapH`: it raises no exception, only removes
handles (the untouched prefix survives), re-establishes `ReapH`, and for
every exited handle in the unscanned suffix either fully reaps its job or
leaves the handle in place while the collection shrank (the skip caused by
removing the preceding handle while iterating). -/
theorem doneWorkGo_reap_spec (s : State) (acc l : List Proc) :
    ReapH s (acc.reverse ++ l) →
    (doneWorkGo s acc l).2 = none ∧
    (∃ tail, (doneWorkGo s acc l).1.processes = acc.reverse ++ tail ∧
      ∀ q ∈ tail, q ∈ l) ∧
    (doneWorkGo s acc l).1.processes.length ≤ (acc.reverse ++ l).length ∧
    ReapH (doneWorkGo s acc l).1 (doneWorkGo s acc l).1.processes ∧
    (∀ p rc, p ∈ l → p.status = some rc →
      Handled (doneWorkGo s acc l).1 p.jobId rc ∨
      (p ∈ (doneWorkGo s acc l).1.processes ∧
       (doneWorkGo s acc l).1.processes.length < (acc.reverse ++ l).length)) := by
  induction s, acc, l using doneWorkGo.induct with
  | case1 s acc =>
    intro H
    obtain ⟨h1, h2, h3, h4, h5, h6, h7⟩ := H
    rw [doneWorkGo_nil]
    refine ⟨rfl, ⟨[], by simp, by simp⟩, by simp, ?_, ?_⟩
    · exact ⟨h1, h2, by simpa using h3, fun q hq => h4 q (by simpa using hq),
        fun q hq => h5 q (by simpa using hq), fun q hq => h6 q (by simpa using hq), h7⟩
    · intro p rc hp hst
      simp at hp
  | case2 s acc p rest hst ih =>
    intro H
    rw [doneWorkGo_skip s acc p rest hst]
    rw [← shift_eq p acc rest] at H
    have spec := ih H
    refine ⟨spec.1, ?_, ?_, spec.2.2.2.1, ?_⟩
    · obtain ⟨tail, htail, hsub⟩ := spec.2.1
      refine ⟨p :: tail, ?_, ?_⟩
      · rw [htail, ← shift_eq]
      · intro q hq
        rcases List.mem_cons.mp hq with h | h
        · rw [h]
          exact List.mem_cons_self _ _
        · exact List.mem_cons_of_mem _ (hsub q h)
    · have hl := spec.2.2.1
      rw [shift_eq] at hl
      exact hl
    · intro p2 rc2 hp2 hst2
      rcases List.mem_cons.mp hp2 with h | h
      · rw [h, hst] at hst2
        simp at hst2
      · rcases spec.2.2.2.2 p2 rc2 h hst2 with hr | hr
        · exact Or.inl hr
        · refine Or.inr ⟨hr.1, ?_⟩
          have hl := hr.2
          rw [shift_eq] at hl
          exact hl
  | case3 s acc p rest rc hst s0 s1 e hmv =>
    intro H
    obtain ⟨h1, h2, h3, h4, h5, h6, h7⟩ := H
    have hpmem : p ∈ acc.reverse ++ p :: rest :=
      List.mem_append_right _ (List.mem_cons_self _ _)
    obtain ⟨dp, hdp⟩ := lookupKey_exists_of_mem_keys (h5 p hpmem)
    have hmv2 : move_job_to_done (logAdd s .info (reapMsg p rc)) p.jobId =
        (s1, some e) := hmv
    have hmvE := move_job_to_done_fresh (logAdd s .info (reapMsg p rc)) p.jobId dp hdp
      (h6 p hpmem)
    have hcontra := hmvE.symm.trans hmv2
    simp at hcontra
  | case6 s acc p rest rc hst s0 s1 hmv s2 htr =>
    intro H
    obtain ⟨h1, h2, h3, h4, h5, h6, h7⟩ := H
    have hpmem : p ∈ acc.reverse ++ p :: rest :=
      List.mem_append_right _ (List.mem_cons_self _ _)
    obtain ⟨dp, hdp⟩ := lookupKey_exists_of_mem_keys (h5 p hpmem)
    have hmv2 : move_job_to_done (logAdd s .info (reapMsg p rc)) p.jobId =
        (s1, none) := hmv
    have hmvE := move_job_to_done_fresh (logAdd s .info (reapMsg p rc)) p.jobId dp hdp
      (h6 p hpmem)
    have hs1 : s1 = ⟨eraseKey s.running p.jobId,
        s.doneArea ++ [(p.jobId, ⟨{ dp with ready := false }, none⟩)],
        s.running_dirs, s.processes, (logAdd s .info (reapMsg p rc)).log⟩ := by
      have hx := hmv2.symm.trans hmvE
      rw [Prod.mk.injEq] at hx
      exact hx.1
    have htr2 : p.jobId ∉ s1.running_dirs := htr
    rw [hs1] at htr2
    exact absurd (h4 p hpmem) htr2
  | case4 s acc p rc hst s0 s1 hmv s2 htr =>
    intro H
    obtain ⟨h1, h2, h3, h4, h5, h6, h7⟩ := H
    have hpmem : p ∈ acc.reverse ++ [p] :=
      List.mem_append_right _ (List.mem_cons_self _ _)
    obtain ⟨dp, hdp⟩ := lookupKey_exists_of_mem_keys (h5 p hpmem)
    have hfreshp : lookupKey s.doneArea p.jobId = none := h6 p hpmem
    have hmv2 : move_job_to_done (logAdd s .info (reapMsg p rc)) p.jobId =
        (s1, none) := hmv
    have hmvE := move_job_to_done_fresh (logAdd s .info (reapMsg p rc)) p.jobId dp hdp
      hfreshp
    have hs1 : s1 = ⟨eraseKey s.running p.jobId,
        s.doneArea ++ [(p.jobId, ⟨{ dp with ready := false }, none⟩)],
        s.running_dirs, s.processes, (logAdd s .info (reapMsg p rc)).log⟩ := by
      have hx := hmv2.symm.trans hmvE
      rw [Prod.mk.injEq] at hx
      exact hx.1
    subst hs1
    rw [doneWorkGo_reap_last s acc p rc _ hst hmv2 htr]
    have hW := write_status_file_append_fresh s.doneArea p.jobId
      { dp with ready := false } none rc hfreshp
    have hfinal : lookupKey (write_status_file
        (s.doneArea ++ [(p.jobId, ⟨{ dp with ready := false }, none⟩)]) p.jobId rc)
        p.jobId =
        some ⟨{ dp with ready := false, doneFile := some (statusText rc) }, none⟩ := by
      rw [hW, lookupKey_append, hfreshp]
      simp [lookupKey]
    have hctx : ∀ q ∈ acc.reverse, q.jobId ≠ p.jobId :=
      fun q hq => nodup_map_middle Proc.jobId acc.reverse [] p q h3 (by simpa using hq)
    refine ⟨rfl, ⟨[], by simp, by simp⟩, by simp, ?_, ?_⟩
    · refine ⟨?_, ?_, ?_, ?_, ?_, ?_, ?_⟩
      · show ((eraseKey s.running p.jobId).map Prod.fst).Nodup
        exact (keys_eraseKey_sublist s.running p.jobId).nodup h1
      · show (s.running_dirs.erase p.jobId).Nodup
        exact h2.erase _
      · show ((acc.reverse).map Proc.jobId).Nodup
        exact ((List.sublist_append_left _ _).map Proc.jobId).nodup h3
      · show ∀ q ∈ acc.reverse, q.jobId ∈ s.running_dirs.erase p.jobId
        intro q hq
        exact mem_erase_of_middle acc [] p s.running_dirs h3 h4 q (by simpa using hq)
      · show ∀ q ∈ acc.reverse, q.jobId ∈ (eraseKey s.running p.jobId).map Prod.fst
        intro q hq
        obtain ⟨v, hv⟩ := lookupKey_exists_of_mem_keys (h5 q (List.mem_append_left _ hq))
        have hv2 : lookupKey (eraseKey s.running p.jobId) q.jobId = some v := by
          rw [lookupKey_eraseKey_ne _ (hctx q hq)]
          exact hv
        exact lookupKey_isSome_mem hv2
      · show ∀ q ∈ acc.reverse, lookupKey (write_status_file
          (s.doneArea ++ [(p.jobId, ⟨{ dp with ready := false }, none⟩)]) p.jobId rc)
          q.jobId = none
        intro q hq
        rw [write_status_file_lookup_ne _ _ _ _ (Ne.symm (hctx q hq)), lookupKey_append,
          h6 q (List.mem_append_left _ hq)]
        simp [lookupKey, Ne.symm (hctx q hq)]
      · show ∀ id ∈ (eraseKey s.running p.jobId).map Prod.fst,
          id ∈ s.running_dirs.erase p.jobId
        intro id hid
        obtain ⟨kv, hkv, hkveq⟩ := List.mem_map.mp hid
        obtain ⟨hkv2, hkne⟩ := mem_eraseKey_ne h1 hkv
        rw [← hkveq]
        exact (List.mem_erase_of_ne hkne).mpr (h7 kv.1 (List.mem_map_of_mem Prod.fst hkv2))
    · intro p2 rc2 hp2 hst2
      have hp2eq : p2 = p := by simpa using hp2
      rw [hp2eq] at hst2 ⊢
      rw [hst] at hst2
      injection hst2 with hrc
      subst hrc
      left
      refine ⟨⟨⟨{ dp with ready := false, doneFile := some (statusText rc) }, none⟩,
        hfinal, rfl, rfl⟩, ?_, ?_, ?_⟩
      · show lookupKey (eraseKey s.running p.jobId) p.jobId = none
        exact lookupKey_eraseKey_self h1
      · show p.jobId ∉ s.running_dirs.erase p.jobId
        exact h2.not_mem_erase
      · intro q hq
        exact hctx q hq
  | case5 s acc p rc hst s0 s1 hmv s2 htr s3 q2 rest2 ih =>
    intro H
    obtain ⟨h1, h2, h3, h4, h5, h6, h7⟩ := H
    have hpmem : p ∈ acc.reverse ++ p :: q2 :: rest2 :=
      List.mem_append_right _ (List.mem_cons_self _ _)
    obtain ⟨dp, hdp⟩ := lookupKey_exists_of_mem_keys (h5 p hpmem)
    have hfreshp : lookupKey s.doneArea p.jobId = none := h6 p hpmem
    have hmv2 : move_job_to_done (logAdd s .info (reapMsg p rc)) p.jobId =
        (s1, none) := hmv
    have htr2 : p.jobId ∈ s1.running_dirs := htr
    have hmvE := move_job_to_done_fresh (logAdd s .info (reapMsg p rc)) p.jobId dp hdp
      hfreshp
    have hs1 : s1 = ⟨eraseKey s.running p.jobId,
        s.doneArea ++ [(p.jobId, ⟨{ dp with ready := false }, none⟩)],
        s.running_dirs, s.processes, (logAdd s .info (reapMsg p rc)).log⟩ := by
      have hx := hmv2.symm.trans hmvE
      rw [Prod.mk.injEq] at hx
      exact hx.1
    rw [doneWorkGo_reap_skip s acc p q2 rest2 rc s1 hst hmv2 htr2]
    have hW := write_status_file_append_fresh s.doneArea p.jobId
      { dp with ready := false } none rc hfreshp
    have hfinal : lookupKey (write_status_file
        (s.doneArea ++ [(p.jobId, ⟨{ dp with ready := false }, none⟩)]) p.jobId rc)
        p.jobId =
        some ⟨{ dp with ready := false, doneFile := some (statusText rc) }, none⟩ := by
      rw [hW, lookupKey_append, hfreshp]
      simp [lookupKey]
    have hctxAll : ∀ q ∈ acc.reverse ++ q2 :: rest2, q.jobId ≠ p.jobId :=
      fun q hq => nodup_map_middle Proc.jobId acc.reverse (q2 :: rest2) p q h3 hq
    have hR3 : ReapH
        { s1 with doneArea := write_status_file s1.doneArea p.jobId rc,
                  running_dirs := s1.running_dirs.erase p.jobId }
        ((q2 :: acc).reverse ++ rest2) := by
      rw [hs1, shift_eq]
      refine ⟨?_, ?_, ?_, ?_, ?_, ?_, ?_⟩
      · exact (keys_eraseKey_sublist s.running p.jobId).nodup h1
      · exact h2.erase _
      · exact nodup_map_remove_middle acc (q2 :: rest2) p h3
      · exact mem_erase_of_middle acc (q2 :: rest2) p s.running_dirs h3 h4
      · intro q hq
        obtain ⟨v, hv⟩ := lookupKey_exists_of_mem_keys (h5 q (by
          rcases List.mem_append.mp hq with h | h
          · exact List.mem_append_left _ h
          · exact List.mem_append_right _ (List.mem_cons_of_mem _ h)))
        have hv2 : lookupKey (eraseKey s.running p.jobId) q.jobId = some v := by
          rw [lookupKey_eraseKey_ne _ (hctxAll q hq)]
          exact hv
        exact lookupKey_isSome_mem hv2
      · intro q hq
        show lookupKey (write_status_file
          (s.doneArea ++ [(p.jobId, ⟨{ dp with ready := false }, none⟩)]) p.jobId rc)
          q.jobId = none
        rw [write_status_file_lookup_ne _ _ _ _ (Ne.symm (hctxAll q hq)), lookupKey_append,
          h6 q (by
            rcases List.mem_append.mp hq with h | h
            · exact List.mem_append_left _ h
            · exact List.mem_append_right _ (List.mem_cons_of_mem _ h))]
        simp [lookupKey, Ne.symm (hctxAll q hq)]
      · intro id hid
        obtain ⟨kv, hkv, hkveq⟩ := List.mem_map.mp hid
        obtain ⟨hkv2, hkne⟩ := mem_eraseKey_ne h1 hkv
        rw [← hkveq]
        exact (List.mem_erase_of_ne hkne).mpr (h7 kv.1 (List.mem_map_of_mem Prod.fst hkv2))
    have hT : doneWorkGo s3 (q2 :: acc) rest2 =
        doneWorkGo { s1 with doneArea := write_status_file s1.doneArea p.jobId rc,
                             running_dirs := s1.running_dirs.erase p.jobId }
          (q2 :: acc) rest2 := rfl
    have spec := ih hR3
    rw [hT] at spec
    have hacc2 : ∀ q ∈ (q2 :: acc).reverse ++ rest2, q.jobId ≠ p.jobId := by
      intro q hq
      rw [shift_eq] at hq
      exact hctxAll q hq
    refine ⟨spec.1, ?_, ?_, spec.2.2.2.1, ?_⟩
    · obtain ⟨tail, htail, hsub⟩ := spec.2.1
      refine ⟨q2 :: tail, ?_, ?_⟩
      · rw [htail, ← shift_eq]
      · intro q hq
        rcases List.mem_cons.mp hq with h | h
        · rw [h]
          exact List.mem_cons_of_mem _ (List.mem_cons_self _ _)
        · exact List.mem_cons_of_mem _ (List.mem_cons_of_mem _ (hsub q h))
    · have hl := spec.2.2.1
      rw [shift_eq] at hl
      simp only [List.length_append, List.length_cons] at hl ⊢
      omega
    · intro p2 rc2 hp2 hst2
      rcases List.mem_cons.mp hp2 with hcase | hp2b
      · rw [hcase] at hst2 ⊢
        rw [hst] at hst2
        injection hst2 with hrc
        subst hrc
        left
        have hfrI := doneWorkGo_id_frame p.jobId
          { s1 with doneArea := write_status_file s1.doneArea p.jobId rc,
                    running_dirs := s1.running_dirs.erase p.jobId }
          (q2 :: acc) rest2 hacc2
        have hfrD := doneWorkGo_doneArea_frame p.jobId
          { s1 with doneArea := write_status_file s1.doneArea p.jobId rc,
                    running_dirs := s1.running_dirs.erase p.jobId }
          (q2 :: acc) rest2
          (fun q hq => hctxAll q (List.mem_append_right _ (List.mem_cons_of_mem _ hq)))
        have hD : lookupKey (write_status_file s1.doneArea p.jobId rc) p.jobId =
            some ⟨{ dp with ready := false, doneFile := some (statusText rc) },
              none⟩ := by
          rw [hs1]
          exact hfinal
        have hRn : lookupKey s1.running p.jobId = none := by
          rw [hs1]
          exact lookupKey_eraseKey_self h1
        have hNd : p.jobId ∉ s1.running_dirs.erase p.jobId := by
          rw [hs1]
          exact h2.not_mem_erase
        refine ⟨⟨⟨{ dp with ready := false, doneFile := some (statusText rc) }, none⟩,
          hfrD.trans hD, rfl, rfl⟩, ?_, ?_, hfrI.2.2⟩
        · exact (hfrI.2.1).trans hRn
        · intro hm
          exact hNd (hfrI.1.mp hm)
      rcases List.mem_cons.mp hp2b with hcase | hp2c
      · subst hcase
        obtain ⟨tail, htail, hsub⟩ := spec.2.1
        refine Or.inr ⟨?_, ?_⟩
        · rw [htail]
          exact List.mem_append_left _ (by simp)
        · have hl := spec.2.2.1
          rw [shift_eq] at hl
          simp only [List.length_append, List.length_cons] at hl ⊢
          omega
      · rcases spec.2.2.2.2 p2 rc2 hp2c hst2 with hr | hr
        · exact Or.inl hr
        · refine Or.inr ⟨hr.1, ?_⟩
          have hl := hr.2
          rw [shift_eq] at hl
          simp only [List.length_append, List.length_cons] at hl ⊢
          omega

/-- One full cycle under `ReapH`: discovery is a no-op (all running-area
directories are tracked), the reaper raises nothing, `ReapH` is preserved,
the handle collection never grows, every exited handle is either fully
reaped this cycle or survives in a strictly shorter collection, and
already-handled jobs stay handled. -/
theorem cycle_reap_spec (s : State) (H : ReapH s s.processes) :
    cycle s = (doneWorkGo s [] s.processes).1 ∧
    ReapH (cycle s) (cycle s).processes ∧
    (cycle s).processes.length ≤ s.processes.length ∧
    (∀ p rc, p ∈ s.processes → p.status = some rc →
      Handled (cycle s) p.jobId rc ∨
      (p ∈ (cycle s).processes ∧
       (cycle s).processes.length < s.processes.length)) ∧
    (∀ id rc, Handled s id rc → Handled (cycle s) id rc) := by
  have hspec := doneWorkGo_reap_spec s [] s.processes H
  have hdn : check_for_new_work s = (s, none) := discovery_noop s H.2.2.2.2.2.2
  have hdd : check_for_done_work s = ((doneWorkGo s [] s.processes).1, none) := by
    rw [check_for_done_work, ← hspec.1]
  have hcyc : cycle s = (doneWorkGo s [] s.processes).1 := by
    rw [cycle, hdn]
    dsimp only
    rw [hdd]
  refine ⟨hcyc, ?_, ?_, ?_, ?_⟩
  · rw [hcyc]
    exact hspec.2.2.2.1
  · rw [hcyc]
    have hl := hspec.2.2.1
    simpa using hl
  · intro p rc hp hst
    rcases hspec.2.2.2.2 p rc hp hst with hr | hr
    · left
      rw [hcyc]
      exact hr
    · right
      rw [hcyc]
      exact ⟨hr.1, by simpa using hr.2⟩
  · intro id rc hH
    obtain ⟨hdone, hrun, hdir, hpr⟩ := hH
    rw [hcyc]
    have hfrI := doneWorkGo_id_frame id s [] s.processes (by simpa using hpr)
    have hfrD := doneWorkGo_doneArea_frame id s [] s.processes hpr
    obtain ⟨en, hen, ha, hb⟩ := hdone
    exact ⟨⟨en, hfrD.trans hen, ha, hb⟩, hfrI.2.1.trans hrun,
      fun hm => hdir (hfrI.1.mp hm), hfrI.2.2⟩

/-- Iterating the loop preserves `ReapH` and never un-handles a job. -/
theorem loop_reap_stable (m : Nat) : ∀ s : State, ReapH s s.processes →
    (∀ id rc, Handled s id rc → Handled (loop m s) id rc) ∧
    ReapH (loop m s) (loop m s).processes := by
  induction m with
  | zero =>
    intro s H
    exact ⟨fun id rc h => h, H⟩
  | succ m ih =>
    intro s H
    have hc := cycle_reap_spec s H
    have hl := ih (cycle s) hc.2.1
    exact ⟨fun id rc h => hl.1 id rc (hc.2.2.2.2 id rc h), hl.2⟩

/-- After at most as many cycles as there are handles, every already-exited
process's job is fully reaped: each cycle either reaps it or strictly
shrinks the handle collection (the skip can defer it, but not forever). -/
theorem loop_reap_progress (n : Nat) : ∀ s : State, ReapH s s.processes →
    ∀ p rc, p ∈ s.processes → p.status = some rc →
    s.processes.length ≤ n → Handled (loop n s) p.jobId rc := by
  induction n with
  | zero =>
    intro s H p rc hp hst hn
    have hnil : s.processes = [] := List.eq_nil_of_length_eq_zero (Nat.le_zero.mp hn)
    rw [hnil] at hp
    simp at hp
  | succ n ih =>
    intro s H p rc hp hst hn
    have hc := cycle_reap_spec s H
    rcases hc.2.2.2.1 p rc hp hst with hr | hr
    · exact (loop_reap_stable n (cycle s) hc.2.1).1 p.jobId rc hr
    · obtain ⟨hmem, hlt⟩ := hr
      have hlen : s.processes.length ≤ n + 1 := hn
      exact ih (cycle s) hc.2.1 p rc hmem hst (by omega)

/-- Claim C1 (corrected): in each reaper invocation every handle the
iteration reaches gets a non-blocking status check, but removing a handle
shifts the list so the next handle is skipped that pass (see the
counterexample): "within one subsequent cycle" is false.  What holds is
the amended bound: for any launched job whose child has exited, within at
most as many subsequent cycles as there are live handles the job directory
is under `done/` and not under `running/`, the ready marker is absent, and
the done marker's content equals the child's real exit code as decimal
text plus newline. -/
theorem claim_C1 (s : State) (p : Proc) (rc : Int) (n : Nat)
    (hR : ReapH s s.processes) (hp : p ∈ s.processes)
    (hst : p.status = some rc) (hn : s.processes.length ≤ n) :
    (∃ en : DoneEntry, lookupKey (loop n s).doneArea p.jobId = some en ∧
      en.top.doneFile = some (statusText rc) ∧ en.top.ready = false) ∧
    lookupKey (loop n s).running p.jobId = none ∧
    p.jobId ∉ (loop n s).running_dirs ∧
    (∀ q ∈ (loop n s).processes, q.jobId ≠ p.jobId) :=
  loop_reap_progress n s hR p rc hp hst hn

/-- Witness for C1: two launched jobs, both children exited with code 0;
after two cycles (the handle count) job `b` is fully reaped even though
one cycle was not enough. -/
theorem claim_C1_witness :
    ReapH (⟨[("a", ⟨true, true, true, true, none⟩),
        ("b", ⟨true, true, true, true, none⟩)], [], ["a", "b"],
        [⟨"a", some 0⟩, ⟨"b", some 0⟩], []⟩ : State)
      [⟨"a", some 0⟩, ⟨"b", some 0⟩] ∧
    ((∃ en : DoneEntry,
        lookupKey (loop 2 (⟨[("a", ⟨true, true, true, true, none⟩),
          ("b", ⟨true, true, true, true, none⟩)], [], ["a", "b"],
          [⟨"a", some 0⟩, ⟨"b", some 0⟩], []⟩ : State)).doneArea "b" = some en ∧
        en.top.doneFile = some (statusText 0) ∧ en.top.ready = false) ∧
      lookupKey (loop 2 (⟨[("a", ⟨true, true, true, true, none⟩),
        ("b", ⟨true, true, true, true, none⟩)], [], ["a", "b"],
        [⟨"a", some 0⟩, ⟨"b", some 0⟩], []⟩ : State)).running "b" = none ∧
      "b" ∉ (loop 2 (⟨[("a", ⟨true, true, true, true, none⟩),
        ("b", ⟨true, true, true, true, none⟩)], [], ["a", "b"],
        [⟨"a", some 0⟩, ⟨"b", some 0⟩], []⟩ : State)).running_dirs ∧
      (∀ q ∈ (loop 2 (⟨[("a", ⟨true, true, true, true, none⟩),
        ("b", ⟨true, true, true, true, none⟩)], [], ["a", "b"],
        [⟨"a", some 0⟩, ⟨"b", some 0⟩], []⟩ : State)).processes,
        q.jobId ≠ "b")) :=
  ⟨by decide,
    claim_C1 (⟨[("a", ⟨true, true, true, true, none⟩),
      ("b", ⟨true, true, true, true, none⟩)], [], ["a", "b"],
      [⟨"a", some 0⟩, ⟨"b", some 0⟩], []⟩ : State) ⟨"b", some 0⟩ 0 2
      (by decide) (by decide) (by decide) (by decide)⟩

end CyhyRunner
